import Mathlib

/-!
# Verification of the persona orchestration engine

Shallow embedding of the persona recommendation / session query core
(`persona_registry.py` and `tools/persona.py`) of the
`research-with-notebooklm-mcp` repository, together with proofs of the
behavioural claims about it.

Conventions of the embedding:
* Python strings are Lean `String`s; Python `str.lower()` is the ASCII
  `Char.toLower` map (the keyword table is ASCII + Korean, and Korean has no
  case, so this is faithful on the table).
* Python dicts that are used as ordered key/value sequences are association
  lists `List (String × String)` in insertion order; `dictSet` models item
  assignment `d[k] = v` (replace in place if present, else append).
* The remote backend (`client.chat.ask`) is an explicit parameter
  `ask : String → String → Except String String` mapping a notebook id and a
  prompt to either an answer or an exception message, mirroring the
  `try/except` structure of the source.
* Python floats are embedded as rationals `ℚ`; the scores computed by the
  code are sums of small unit fractions, used only through the order facts
  proved here.
-/

namespace NotebookLM

/-- ASCII lowering of a string, modelling Python `str.lower()` on the
alphabets that occur in the domain keyword table. -/
def lowerStr (s : String) : String := String.mk (s.data.map Char.toLower)

/-- `needle` occurs as a contiguous run inside `hay`. -/
def occursIn (needle : List Char) : List Char → Bool
  | [] => needle.isEmpty
  | c :: rest => needle.isPrefixOf (c :: rest) || occursIn needle rest

/-- Case-insensitive substring test: models `kw.lower() in topic.lower()`. -/
def substrCI (kw topic : String) : Bool :=
  occursIn (lowerStr kw).data (lowerStr topic).data

/-- A regex word character (`\w`) for the character classes that occur here:
ASCII alphanumerics, underscore, and the Hangul blocks (Jamo, compatibility
Jamo, and precomposed syllables).  Python's `\w` is full-Unicode; the
restriction is faithful on the keyword table and the inputs evaluated. -/
def isWordChar (c : Char) : Bool :=
  c.isAlphanum || c == '_' ||
    (0x1100 ≤ c.toNat && c.toNat ≤ 0x11FF) ||
    (0x3130 ≤ c.toNat && c.toNat ≤ 0x318F) ||
    (0xAC00 ≤ c.toNat && c.toNat ≤ 0xD7A3)

/-- Case-insensitive "kw occurs at the head of s" with a right word boundary
after the occurrence. -/
def wbHeadMatch (kw s : List Char) : Bool :=
  (kw.map Char.toLower).isPrefixOf (s.map Char.toLower) &&
    (match s.drop kw.length with
     | [] => true
     | c :: _ => !isWordChar c)

/-- Scan for a word-boundary-delimited, case-insensitive occurrence of `kw`.
`atBoundary` records whether the current position follows the start of the
string or a non-word character. -/
def wbScan (kw : List Char) : Bool → List Char → Bool
  | atBoundary, [] => atBoundary && wbHeadMatch kw []
  | atBoundary, c :: rest =>
      (atBoundary && wbHeadMatch kw (c :: rest)) || wbScan kw (!isWordChar c) rest

/-- Models `re.search(rf"\b{re.escape(kw)}\b", topic, re.IGNORECASE)` for
keywords that (like every entry of the table) begin and end with word
characters, so that `\b` at both ends means "adjacent to a non-word
character or to the string edge". -/
def wordBoundaryHit (kw topic : String) : Bool :=
  kw.data ≠ [] && wbScan kw.data true topic.data

/-- The per-keyword test of `classify_domain`'s inner loop: a plain
case-insensitive substring hit counts; otherwise (`elif`) a keyword of
length ≤ 3 may still count through the word-boundary regex. -/
def keyword_matches (topic kw : String) : Bool :=
  substrCI kw topic || (kw.length ≤ 3 && wordBoundaryHit kw topic)

/-- Number of keywords of one domain that match the topic: the `count`
accumulated by `classify_domain` for that domain. -/
def domainCount (topic : String) (kws : List String) : Nat :=
  (kws.filter (keyword_matches topic)).length

/-- `DOMAIN_KEYWORDS`: the static domain → keyword table, in source order. -/
def DOMAIN_KEYWORDS : List (String × List String) :=
  [ ("technology",
     ["AI", "인공지능", "머신러닝", "딥러닝", "반도체", "칩", "GPU", "TPU",
      "소프트웨어", "하드웨어", "클라우드", "SaaS", "API", "오픈소스", "LLM",
      "블록체인", "양자컴퓨팅", "로봇", "자율주행", "IoT", "5G", "6G",
      "사이버보안", "데이터센터", "엣지컴퓨팅", "AR", "VR", "메타버스"]),
    ("engineering",
     ["공정", "설계", "제조", "아키텍처", "시스템", "프로토콜", "인프라",
      "나노미터", "nm", "EUV", "파운드리", "패키징", "테스트"]),
    ("business",
     ["시장", "매출", "수익", "전략", "경쟁", "고객", "마케팅", "브랜드",
      "BM", "비즈니스모델", "사업", "기업", "경영", "조직", "인수합병", "M&A"]),
    ("finance",
     ["투자", "주식", "펀드", "VC", "IPO", "밸류에이션", "PER", "PBR", "ROI",
      "ROE", "재무", "회계", "금리", "환율", "인플레이션"]),
    ("investment",
     ["포트폴리오", "자산배분", "리밸런싱", "수익률", "배당", "ETF", "채권",
      "원자재", "부동산", "대체투자"]),
    ("startup",
     ["스타트업", "창업", "PMF", "GTM", "피벗", "MVP", "시리즈A", "유니콘",
      "엑셀러레이터", "벤처", "린스타트업"]),
    ("academic",
     ["논문", "연구", "학술", "학회", "저널", "피어리뷰", "인용", "가설",
      "실험", "이론", "모델", "프레임워크"]),
    ("science",
     ["과학", "물리", "화학", "생물", "수학", "통계", "실험", "발견", "법칙",
      "원리", "증명"]),
    ("research",
     ["연구개발", "R&D", "기초연구", "응용연구", "연구소", "랩"]),
    ("medical",
     ["의료", "임상", "치료", "진단", "약물", "FDA", "신약", "환자", "질병",
      "바이오", "게놈", "유전자", "백신"]),
    ("healthcare",
     ["건강", "헬스케어", "디지털헬스", "원격의료", "의료기기"]),
    ("pharmaceutical",
     ["제약", "임상시험", "CRO", "CMO", "GMP", "신약개발"]),
    ("policy",
     ["정책", "규제", "법률", "법안", "입법", "행정", "정부", "공공",
      "거버넌스", "컴플라이언스"]),
    ("legal",
     ["법", "계약", "소송", "특허", "지적재산", "IP", "라이선스"]),
    ("regulation",
     ["인허가", "인증", "표준", "가이드라인", "감독", "감사"]),
    ("education",
     ["교육", "학습", "커리큘럼", "EdTech", "온라인교육", "MOOC"]),
    ("social",
     ["사회", "문화", "인구", "노동", "고용", "불평등", "환경", "ESG"]),
    ("geopolitics",
     ["지정학", "외교", "안보", "무역전쟁", "제재", "동맹", "패권", "공급망",
      "디커플링", "리쇼어링", "프렌드쇼어링"]),
    ("management",
     ["리더십", "조직문화", "HR", "인사", "성과관리", "OKR", "KPI"]),
    ("software",
     ["프로그래밍", "개발", "코딩", "DevOps", "CI/CD", "마이크로서비스",
      "컨테이너", "쿠버네티스", "프론트엔드", "백엔드"]),
    ("hardware",
     ["하드웨어", "ASIC", "FPGA", "PCB", "임베디드", "센서"]),
    ("government",
     ["정부", "공공기관", "국방", "조달"]) ]

/-- Stable descending insertion for the Bool comparison `le`: a later
element is placed after every earlier element whose key is ≥ its own.
`foldl` of this over a list computes exactly the stable descending sort that
Python's `sorted(..., reverse=True)` / `list.sort(reverse=True)` produce. -/
def insertDesc {α : Type} (le : α → α → Bool) (x : α) : List α → List α
  | [] => [x]
  | y :: ys => if le x y then y :: insertDesc le x ys else x :: y :: ys

/-- Stable sort, descending on `le`, of a list (Python stable sort with
`reverse=True`). -/
def sortDesc {α : Type} (le : α → α → Bool) (l : List α) : List α :=
  l.foldl (fun acc x => insertDesc le x acc) []

/-- `classify_domain`: count keyword matches per domain, keep the domains
with positive count, stable-sort by count descending, and fall back to the
fixed default list if nothing matched. -/
def classify_domain (topic : String) : List String :=
  let scored := DOMAIN_KEYWORDS.filterMap (fun dk =>
    let c := domainCount topic dk.2
    if 0 < c then some (dk.1, c) else none)
  let sorted_domains :=
    (sortDesc (fun a b => decide (a.2 ≤ b.2)) scored).map (fun x => x.1)
  if sorted_domains.isEmpty then ["technology", "business"] else sorted_domains

/-- `PersonaTemplate` (from `persona_registry.py`).  The purely decorative
natural-language fields (`description`, `description_ko`,
`system_prompt_template`) are long prose strings never examined by any
verified operation and are not embedded; all fields the classifier,
recommender and orchestrator read are present. -/
structure PersonaTemplate where
  key : String
  name : String
  name_ko : String
  role : String
  role_ko : String
  source_bias : String
  red_blue : String
  domains : List String
deriving DecidableEq, Repr

/-- `PERSONA_POOL`: the registration-ordered persona pool (Python dict,
insertion order). -/
def personaPool : List PersonaTemplate :=
  [ { key := "devil_advocate", name := "Devil's Advocate",
      name_ko := "비판적 회의론자", role := "Critical Skeptic",
      role_ko := "비판적 회의론자", source_bias := "counter_evidence",
      red_blue := "red", domains := ["*"] },
    { key := "synthesizer", name := "Synthesizer",
      name_ko := "통합 분석가", role := "Integrative Analyst",
      role_ko := "통합 분석가", source_bias := "balanced",
      red_blue := "neutral", domains := ["*"] },
    { key := "practitioner", name := "Practitioner",
      name_ko := "현장 실무자", role := "Field Practitioner",
      role_ko := "현장 실무자", source_bias := "practical",
      red_blue := "neutral", domains := ["*"] },
    { key := "futurist", name := "Futurist",
      name_ko := "미래 전략가", role := "Future Strategist",
      role_ko := "미래 전략가", source_bias := "balanced",
      red_blue := "blue", domains := ["*"] },
    { key := "tech_architect", name := "Tech Architect",
      name_ko := "기술 아키텍트", role := "Technology Architecture Expert",
      role_ko := "기술 아키텍처 전문가", source_bias := "balanced",
      red_blue := "neutral",
      domains := ["technology", "engineering", "software", "hardware"] },
    { key := "tech_optimist", name := "Tech Optimist",
      name_ko := "기술 낙관론자", role := "Technology Opportunity Spotter",
      role_ko := "기술 기회 발견가", source_bias := "supportive",
      red_blue := "blue",
      domains := ["technology", "engineering", "science"] },
    { key := "market_analyst", name := "Market Analyst",
      name_ko := "시장 분석가", role := "Market & Investment Analyst",
      role_ko := "시장/투자 분석가", source_bias := "balanced",
      red_blue := "neutral",
      domains := ["business", "finance", "investment", "startup"] },
    { key := "risk_assessor", name := "Risk Assessor",
      name_ko := "리스크 평가자", role := "Risk Assessment Specialist",
      role_ko := "리스크 평가 전문가", source_bias := "counter_evidence",
      red_blue := "red",
      domains := ["business", "finance", "investment", "technology"] },
    { key := "business_strategist", name := "Business Strategist",
      name_ko := "경영 전략가", role := "Business Strategy Consultant",
      role_ko := "경영 전략 컨설턴트", source_bias := "balanced",
      red_blue := "neutral",
      domains := ["business", "startup", "management"] },
    { key := "methodology_critic", name := "Methodology Critic",
      name_ko := "방법론 비평가", role := "Research Methodology Critic",
      role_ko := "연구 방법론 비평가", source_bias := "counter_evidence",
      red_blue := "red",
      domains := ["academic", "science", "research", "medical"] },
    { key := "literature_reviewer", name := "Literature Reviewer",
      name_ko := "문헌 검토자", role := "Systematic Literature Reviewer",
      role_ko := "체계적 문헌 검토 전문가", source_bias := "balanced",
      red_blue := "neutral",
      domains := ["academic", "science", "research"] },
    { key := "policy_analyst", name := "Policy Analyst",
      name_ko := "정책 분석가", role := "Policy & Regulation Analyst",
      role_ko := "정책/규제 분석가", source_bias := "regulatory",
      red_blue := "neutral",
      domains := ["policy", "legal", "regulation", "government"] },
    { key := "ethics_reviewer", name := "Ethics Reviewer",
      name_ko := "윤리 검토자", role := "Ethics & Social Impact Reviewer",
      role_ko := "윤리/사회적 영향 검토자", source_bias := "counter_evidence",
      red_blue := "red",
      domains := ["policy", "technology", "medical", "social"] },
    { key := "clinical_expert", name := "Clinical Expert",
      name_ko := "임상 전문가", role := "Clinical Evidence Expert",
      role_ko := "임상 근거 전문가", source_bias := "balanced",
      red_blue := "neutral",
      domains := ["medical", "healthcare", "pharmaceutical"] },
    { key := "startup_advisor", name := "Startup Advisor",
      name_ko := "스타트업 어드바이저", role := "Startup Strategy Advisor",
      role_ko := "스타트업 전략 조언자", source_bias := "balanced",
      red_blue := "blue",
      domains := ["startup", "business", "technology"] },
    { key := "educator", name := "Educator",
      name_ko := "교육 전문가", role := "Education & Learning Specialist",
      role_ko := "교육/학습 전문가", source_bias := "balanced",
      red_blue := "neutral",
      domains := ["education", "academic", "technology"] },
    { key := "data_analyst", name := "Data Analyst",
      name_ko := "데이터 분석가", role := "Quantitative Data Analyst",
      role_ko := "정량적 데이터 분석가", source_bias := "balanced",
      red_blue := "neutral",
      domains := ["business", "finance", "science", "technology"] },
    { key := "geopolitical_analyst", name := "Geopolitical Analyst",
      name_ko := "지정학 분석가",
      role := "Geopolitical & International Relations Analyst",
      role_ko := "지정학/국제관계 분석가", source_bias := "balanced",
      red_blue := "neutral",
      domains := ["geopolitics", "policy", "business", "technology"] } ]

/-- `PERSONA_POOL.get(key)` / `get_persona`: first (only) pool entry with
the given key. -/
def get_persona (key : String) : Option PersonaTemplate :=
  personaPool.find? (fun p => p.key == key)

/-- An exact nonnegative fraction.  The recommendation scores (Python
floats) are embedded as exact fractions so that the embedding is executable
by the kernel; every score the code builds is a sum of unit fractions, and
`Frac.toRat` maps the representation onto `ℚ` for the specification-level
statements. -/
structure Frac where
  num : Nat
  den : Nat
deriving DecidableEq, Repr

/-- Exact fraction addition (no normalisation). -/
def Frac.add (a b : Frac) : Frac :=
  { num := a.num * b.den + b.num * a.den, den := a.den * b.den }

/-- Exact fraction comparison by cross-multiplication. -/
def Frac.ble (a b : Frac) : Bool := decide (a.num * b.den ≤ b.num * a.den)

/-- The rational value of a fraction. -/
def Frac.toRat (a : Frac) : ℚ := (a.num : ℚ) / (a.den : ℚ)

/-- The score `recommend_personas` assigns to one persona for the classified
`domains` list: wildcard personas get `1.0`; domain-specific personas with a
non-empty overlap get `10 + Σ 1/(rank+1)` over their overlapping domains
(`rank` = zero-based `domains.index`); the rest are excluded (`none`).  The
pool's domain lists are duplicate-free, so iterating the Python set
intersection is iterating the filtered list. -/
def scoreOf (domains : List String) (p : PersonaTemplate) : Option Frac :=
  if p.domains.contains "*" then some { num := 1, den := 1 }
  else
    let overlap := p.domains.filter (fun d => domains.contains d)
    if overlap.isEmpty then none
    else some ((overlap.map
      (fun d => { num := 1, den := domains.indexOf d + 1 : Frac })).foldl
        Frac.add { num := 10, den := 1 })

/-- `max_per_team = max(1, (max_count + 1) // 2)`. -/
def maxPerTeam (maxCount : Nat) : Nat := max 1 ((maxCount + 1) / 2)

/-- Number of selected personas on the team named `t`. -/
def countTeam (t : String) (sel : List PersonaTemplate) : Nat :=
  (sel.filter (fun p => p.red_blue == t)).length

/-- One iteration of the greedy selection loop: stop when full, skip a
duplicate key, skip a red/blue candidate whose team is at the cap, else
append.  The Python loop `break`s when full; since every later iteration
would be a no-op, skipping is equivalent.  The running `red_count` /
`blue_count` counters of the source always equal the team counts of
`selected`, which is how they are rendered here. -/
def selStep (maxCount : Nat) (sel : List PersonaTemplate)
    (p : PersonaTemplate) : List PersonaTemplate :=
  if maxCount ≤ sel.length then sel
  else if (sel.map (fun q => q.key)).contains p.key then sel
  else if p.red_blue == "red" && maxPerTeam maxCount ≤ countTeam "red" sel then
    sel
  else if p.red_blue == "blue" && maxPerTeam maxCount ≤ countTeam "blue" sel
  then sel
  else sel ++ [p]

/-- The greedy selection pass over the score-sorted persona list. -/
def selectLoop (maxCount : Nat) (scored : List PersonaTemplate) :
    List PersonaTemplate :=
  scored.foldl (selStep maxCount) []

/-- Replace the LAST entry whose stance is `"neutral"` by `q`; `none` when
no entry is neutral (the source's backwards `for i in range(len-1,-1,-1)`
scan with a trailing `for ... else`). -/
def replaceLastNeutral (q : PersonaTemplate) :
    List PersonaTemplate → Option (List PersonaTemplate)
  | [] => none
  | x :: xs =>
    match replaceLastNeutral q xs with
    | some ys => some (x :: ys)
    | none => if x.red_blue == "neutral" then some (q :: xs) else none

/-- The fixed default critical persona `PERSONA_POOL.get("devil_advocate")`
that the first balancing pass force-includes (the lookup always succeeds on
the static pool, so the source's `if da` guard is always taken). -/
def devil_advocate : PersonaTemplate :=
  { key := "devil_advocate", name := "Devil's Advocate",
    name_ko := "비판적 회의론자", role := "Critical Skeptic",
    role_ko := "비판적 회의론자", source_bias := "counter_evidence",
    red_blue := "red", domains := ["*"] }

/-- First balancing pass: if the full selection has no red persona and the
fixed default critical persona (`devil_advocate`) is not already selected,
replace the last neutral entry with it — or, failing a neutral, the last
entry. -/
def forceRed (maxCount : Nat) (sel : List PersonaTemplate) :
    List PersonaTemplate :=
  if countTeam "red" sel == 0 && maxCount ≤ sel.length then
    if (sel.map (fun q => q.key)).contains devil_advocate.key then sel
    else
      match replaceLastNeutral devil_advocate sel with
      | some ys => ys
      | none => sel.dropLast ++ [devil_advocate]
  else sel

/-- Second balancing pass: if the full selection has no blue persona,
replace the last neutral entry with the first not-yet-selected blue persona
of the pool; with no blue candidate or no neutral entry the selection is
left unchanged (this loop has no `else` arm in the source). -/
def forceBlue (maxCount : Nat) (sel : List PersonaTemplate) :
    List PersonaTemplate :=
  if countTeam "blue" sel == 0 && maxCount ≤ sel.length then
    match personaPool.filter (fun p =>
      p.red_blue == "blue" && !(sel.map (fun q => q.key)).contains p.key) with
    | [] => sel
    | c :: _ =>
      match replaceLastNeutral c sel with
      | some ys => ys
      | none => sel
  else sel

/-- One entry of `recommend_personas`' result list (the per-persona dict;
the `description` and resolved `system_prompt` fields are prose the verified
properties never read and are not embedded). -/
structure PersonaConfig where
  key : String
  name : String
  name_ko : String
  role : String
  source_bias : String
  red_blue : String
deriving DecidableEq, Repr

/-- Build the result dict for one selected persona. -/
def mkConfig (language : String) (p : PersonaTemplate) : PersonaConfig :=
  { key := p.key, name := p.name, name_ko := p.name_ko,
    role := if language == "ko" then p.role_ko else p.role,
    source_bias := p.source_bias, red_blue := p.red_blue }

/-- The `scored`/`sorted` locals of `recommend_personas`: every pool
persona paired with its score (excluded personas dropped), stable-sorted by
score descending, then projected back to the personas. -/
def scoredPool (topic : String) : List PersonaTemplate :=
  (sortDesc (fun a b => Frac.ble a.1 b.1) (personaPool.filterMap (fun p =>
    match scoreOf (classify_domain topic) p with
    | some s => some (s, p)
    | none => none))).map (fun x => x.2)

/-- The `selected` local of `recommend_personas` after both balancing
passes. -/
def selectedPersonas (topic : String) (maxCount : Nat) :
    List PersonaTemplate :=
  forceBlue maxCount (forceRed maxCount
    (selectLoop maxCount (scoredPool topic)))

/-- `recommend_personas`: classify the topic, score and stable-sort the
pool, run the capped greedy selection, apply the two balancing passes, and
emit the configurations of the first `maxCount` selected personas. -/
def recommend_personas (topic : String) (maxCount : Nat) (language : String) :
    List PersonaConfig :=
  ((selectedPersonas topic maxCount).take maxCount).map (mkConfig language)

/-! ## Orchestrator (`tools/persona.py`)

A session's notebook bindings (`session.notebooks`) and latest answers
(`session.last_results`) are insertion-ordered Python dicts, embedded as
association lists.  The backend call `client.chat.ask(nb_id, prompt)` is an
explicit parameter `ask : String → String → Except String String`
(notebook id and prompt to answer-or-exception); the conversation-handle
bookkeeping around it has no bearing on any entry produced and is not
embedded. -/

/-- Python dict item assignment `d[k] = v` on an insertion-ordered
association list: overwrite in place if the key is present, else append. -/
def dictSet (m : List (String × String)) (k v : String) :
    List (String × String) :=
  if m.any (fun kv => kv.1 == k) then
    m.map (fun kv => if kv.1 == k then (k, v) else kv)
  else m ++ [(k, v)]

/-- Python dict lookup `d.get(k)`. -/
def dictLookup (m : List (String × String)) (k : String) : Option String :=
  (m.find? (fun kv => kv.1 == k)).map (fun kv => kv.2)

/-- Rendering of a failed ask in the independent strategy:
`f"[Error: {e}]"`. -/
def errorMarker (e : String) : String := "[Error: " ++ e ++ "]"

/-- A single `_ask_one` of the independent strategy: the answer on success,
the inline error marker on failure. -/
def renderAnswer : Except String String → String
  | Except.ok a => a
  | Except.error e => errorMarker e

/-- `_query_independent`, restricted to the per-persona entries it produces:
one `(persona_key, answer-or-marker)` pair per targeted persona, in session
order.  `asyncio.gather` over the per-persona tasks returns them in task
order, which is the order of `active_personas.items()`. -/
def _query_independent (ask : String → String → Except String String)
    (question : String) (active : List (String × String)) :
    List (String × String) :=
  active.map (fun kv => (kv.1, renderAnswer (ask kv.2 question)))

/-- The session update the independent strategy performs: each produced
entry is written into the existing `session.last_results` dict with item
assignment (`session.last_results[persona_key] = answer`). -/
def independentSessionUpdate (old : List (String × String))
    (ask : String → String → Except String String) (question : String)
    (active : List (String × String)) : List (String × String) :=
  (_query_independent ask question active).foldl
    (fun m kv => dictSet m kv.1 kv.2) old

/-- `previous_answer[:2000]`: the first 2000 characters. -/
def truncateAnswer (s : String) : String := String.mk (s.data.take 2000)

/-- The cascading prompt for every stage after the first: the previous
answer's truncated excerpt, the instruction to supplement the analysis from
the persona's expert perspective, and the original question. -/
def cascadePrompt (question role prev : String) : String :=
  "이전 단계의 분석 결과입니다:\n---\n" ++ truncateAnswer prev ++
    "\n---\n\n당신의 전문 관점(" ++ role ++
    ")에서 위 분석을 보완하고, 간과된 측면이나 다른 해석을 제시하며, " ++
    "다음 질문에 답해주세요:\n\n" ++ question

/-- The error marker of a failed cascading stage:
`f"[Error at stage {stage}: {e}]"`. -/
def stageErrorMarker (stage : Nat) (e : String) : String :=
  "[Error at stage " ++ toString stage ++ ": " ++ e ++ "]"

/-- The sequential loop of `_query_cascading`, carrying the 1-based stage
number and the previous stage's answer; produces the
`(persona_key, prompt, answer)` triple of every stage. -/
def cascadeStages (ask : String → String → Except String String)
    (role : String → String) (question : String) :
    Nat → String → List (String × String) → List (String × String × String)
  | _, _, [] => []
  | stage, prev, kv :: rest =>
    let prompt := if stage == 1 then question
      else cascadePrompt question (role kv.1) prev
    let answer := match ask kv.2 prompt with
      | Except.ok a => a
      | Except.error e => stageErrorMarker stage e
    (kv.1, prompt, answer) :: cascadeStages ask role question (stage + 1)
      answer rest

/-- `_query_cascading`, restricted to the per-stage data it produces:
stages start at 1 with an empty previous answer.  `role` models
`session.personas.get(key, {}).get("role_ko", "")`. -/
def _query_cascading (ask : String → String → Except String String)
    (role : String → String) (question : String)
    (active : List (String × String)) : List (String × String × String) :=
  cascadeStages ask role question 1 "" active

/-- The session update of the cascading strategy:
`session.last_results = all_answers` — the previous mapping is discarded and
the fresh per-stage answer dict replaces it wholesale. -/
def cascadingSessionUpdate (ask : String → String → Except String String)
    (role : String → String) (question : String)
    (active : List (String × String)) : List (String × String) :=
  ((_query_cascading ask role question active).map
    (fun s => (s.1, s.2.2))).foldl (fun m kv => dictSet m kv.1 kv.2) []

/-- The team-partitioning fold of `_query_red_blue`: declared red stances
go to the red team, declared blue stances to the blue team, and neutrals
are auto-assigned by source bias (`counter_evidence` / `regulatory` → red,
all other biases → blue).  `stance` and `bias` model
`session.personas.get(key, {}).get("red_blue", "neutral")` and
`... .get("source_bias", "balanced")`. -/
def assignStep (stance bias : String → String)
    (acc : List (String × String) × List (String × String))
    (kv : String × String) :
    List (String × String) × List (String × String) :=
  if stance kv.1 == "red" then (acc.1, acc.2 ++ [kv])
  else if stance kv.1 == "blue" then (acc.1 ++ [kv], acc.2)
  else if bias kv.1 == "counter_evidence" || bias kv.1 == "regulatory"
  then (acc.1, acc.2 ++ [kv])
  else (acc.1 ++ [kv], acc.2)

/-- The team-partitioning fold over the targeted personas, starting from
two empty teams. -/
def assignTeams (stance bias : String → String)
    (active : List (String × String)) :
    List (String × String) × List (String × String) :=
  active.foldl (assignStep stance bias) ([], [])

/-- The empty-team repair of `_query_red_blue`: with an empty blue team the
FIRST red member moves to blue; with an empty red team the LAST blue member
moves to red; otherwise the teams are unchanged.  (Pair = (blue, red).) -/
def balanceTeams (teams : List (String × String) × List (String × String)) :
    List (String × String) × List (String × String) :=
  match teams with
  | ([], r :: rs) => ([r], rs)
  | (b :: bs, []) =>
    ((b :: bs).dropLast, [(b :: bs).getLast (List.cons_ne_nil b bs)])
  | t => t

/-- The team partition actually used by `_query_red_blue`. -/
def redBlueTeams (stance bias : String → String)
    (active : List (String × String)) :
    List (String × String) × List (String × String) :=
  balanceTeams (assignTeams stance bias active)

/-- `_ask_team`: every member of a team is asked the same team prompt, each
failure rendered inline, in team order (full-barrier `asyncio.gather`). -/
def askTeam (ask : String → String → Except String String)
    (teamPrompt : String) (team : List (String × String)) :
    List (String × String) :=
  team.map (fun kv => (kv.1, renderAnswer (ask kv.2 teamPrompt)))

/-- The session update of the red/blue strategy: the blue results and then
the red results are written key-by-key into the existing
`session.last_results` dict. -/
def redBlueSessionUpdate (old : List (String × String))
    (ask : String → String → Except String String)
    (stance bias : String → String) (bluePrompt redPrompt : String)
    (active : List (String × String)) : List (String × String) :=
  let teams := redBlueTeams stance bias active
  let blueResults := askTeam ask bluePrompt teams.1
  let redResults := askTeam ask redPrompt teams.2
  redResults.foldl (fun m kv => dictSet m kv.1 kv.2)
    (blueResults.foldl (fun m kv => dictSet m kv.1 kv.2) old)

/-- The unknown-key error text of `persona_setup`. -/
def unknownPersonaKeyError (key : String) : String :=
  "Error: Unknown persona key '" ++ key ++ "'.\nAvailable: " ++
    String.intercalate ", " (personaPool.map (fun p => p.key))

/-- The key-validation loop of `persona_setup` over an already-truncated
key list: the first unknown key aborts with the error text, otherwise all
keys are accepted in order. -/
def validateKeys : List String → Except String (List String)
  | [] => Except.ok []
  | k :: rest =>
    match get_persona k with
    | none => Except.error (unknownPersonaKeyError k)
    | some _ =>
      match validateKeys rest with
      | Except.ok vs => Except.ok (k :: vs)
      | Except.error e => Except.error e

/-- The head of `persona_setup`: `persona_keys = persona_keys[:4]` followed
by validation; on success the accepted keys are exactly the keys that
receive a notebook binding. -/
def personaSetupKeys (persona_keys : List String) :
    Except String (List String) :=
  validateKeys (persona_keys.take 4)

/-! ## Properties of the domain classifier -/

/-- C9: a topic for which every domain's keyword-match count is zero is
classified as the fixed default list `["technology", "business"]`, and no
topic is ever classified as the empty list. -/
theorem classify_domain_default (topic : String) :
    ((∀ dk ∈ DOMAIN_KEYWORDS, domainCount topic dk.2 = 0) →
      classify_domain topic = ["technology", "business"]) ∧
    classify_domain topic ≠ [] := by
  constructor
  · intro h
    unfold classify_domain
    have hnil : DOMAIN_KEYWORDS.filterMap (fun dk =>
        let c := domainCount topic dk.2
        if 0 < c then some (dk.1, c) else none) = [] := by
      rw [List.filterMap_eq_nil_iff]
      intro dk hdk
      simp only [h dk hdk]
      rfl
    rw [hnil]
    rfl
  · have haux : ∀ l : List String,
        (if l.isEmpty then ["technology", "business"] else l) ≠ [] := by
      intro l
      cases l <;> simp
    exact haux _

/-- Witness for C9 at the concrete keyword-free topic `"zzz"`. -/
theorem classify_domain_default_witness :
    classify_domain "zzz" = ["technology", "business"] :=
  (classify_domain_default "zzz").1 (by decide)

/-- C2 fails on the code: the short (length-2) keyword `"AI"` of the
`"technology"` domain matches the topic `"aid"` as a bare case-insensitive
substring although no word boundary delimits it, and that match alone makes
`classify_domain` return `["technology"]` instead of treating the count as
zero (which would have produced the default list). -/
theorem short_keyword_substring_hit_cex :
    "AI".length ≤ 3 ∧
    "AI" ∈ (DOMAIN_KEYWORDS.get ⟨0, by decide⟩).2 ∧
    substrCI "AI" "aid" = true ∧
    wordBoundaryHit "AI" "aid" = false ∧
    keyword_matches "aid" "AI" = true ∧
    domainCount "aid" (DOMAIN_KEYWORDS.get ⟨0, by decide⟩).2 = 1 ∧
    classify_domain "aid" = ["technology"] := by
  decide

/-- C2 as amended: a keyword of length ≤ 3 that occurs in the topic as a
case-insensitive substring is counted toward the domain's match count
whether or not the occurrence is bounded by word boundaries (the
word-boundary test is only a second chance taken when the substring test
fails, never a restriction). -/
theorem short_keyword_substring_counts (kws : List String) (kw topic : String)
    (hmem : kw ∈ kws) (hlen : kw.length ≤ 3)
    (hsub : substrCI kw topic = true) :
    0 < domainCount topic kws := by
  unfold domainCount
  have hm : keyword_matches topic kw = true := by
    unfold keyword_matches
    rw [hsub]
    rfl
  have : kw ∈ kws.filter (keyword_matches topic) :=
    List.mem_filter.mpr ⟨hmem, hm⟩
  exact List.length_pos.mpr (List.ne_nil_of_mem this)

/-- Witness for C2's amended statement at the concrete non-word-bounded
substring hit of `"AI"` in `"aid"`. -/
theorem short_keyword_substring_counts_witness :
    0 < domainCount "aid" (DOMAIN_KEYWORDS.get ⟨0, by decide⟩).2 :=
  short_keyword_substring_counts _ "AI" "aid" (by decide) (by decide)
    (by decide)

/-! ## Properties of `persona_setup` key handling -/

/-- The validation loop returns, on success, exactly the list it was
given. -/
theorem validateKeys_ok : ∀ {ks vs : List String},
    validateKeys ks = Except.ok vs → vs = ks := by
  intro ks
  induction ks with
  | nil => intro vs h; cases h; rfl
  | cons k rest ih =>
    intro vs h
    unfold validateKeys at h
    cases hg : get_persona k with
    | none => rw [hg] at h; cases h
    | some p =>
      rw [hg] at h
      cases hr : validateKeys rest with
      | ok vs2 => rw [hr] at h; cases h; rw [ih hr]
      | error e => rw [hr] at h; cases h

/-- C10: `persona_setup` truncates the key list to its first 4 entries
before validating, so the outcome — including whether the unknown-key error
fires at all — depends only on the first 4 keys, and on success the keys
that receive notebook bindings are exactly the first 4 supplied keys. -/
theorem persona_setup_truncation (persona_keys : List String) :
    personaSetupKeys persona_keys = personaSetupKeys (persona_keys.take 4) ∧
    (∀ vs, personaSetupKeys persona_keys = Except.ok vs →
      vs = persona_keys.take 4 ∧ ∀ k ∈ vs, k ∈ persona_keys.take 4) := by
  constructor
  · unfold personaSetupKeys
    simp [List.take_take]
  · intro vs h
    have := validateKeys_ok h
    exact ⟨this, fun k hk => this ▸ hk⟩

/-- Witness for C10: a 5th, unknown key is silently dropped — validation
succeeds and binds exactly the first four keys. -/
theorem persona_setup_truncation_witness :
    personaSetupKeys ["devil_advocate", "synthesizer", "practitioner",
        "futurist", "no_such_persona"] =
      Except.ok ["devil_advocate", "synthesizer", "practitioner",
        "futurist"] ∧
    (["devil_advocate", "synthesizer", "practitioner", "futurist"] :
        List String) =
      (["devil_advocate", "synthesizer", "practitioner", "futurist",
        "no_such_persona"] : List String).take 4 :=
  ⟨rfl,
    ((persona_setup_truncation ["devil_advocate", "synthesizer",
      "practitioner", "futurist", "no_such_persona"]).2 _ rfl).1⟩

/-! ## Latest-answer mapping update discipline (C1) -/

/-- The in-place-overwrite branch of `dictSet` does not disturb the lookup
of a different key. -/
theorem find_replace_ne (b : String) {k a : String} (h : k ≠ a) :
    ∀ m : List (String × String),
      List.find? (fun kv => kv.1 == k)
        (m.map (fun kv => if kv.1 == a then (a, b) else kv)) =
      List.find? (fun kv => kv.1 == k) m := by
  intro m
  induction m with
  | nil => rfl
  | cons kv rest ih =>
    by_cases hkv : kv.1 = a
    · rw [List.map_cons, if_pos (by simpa using hkv),
        List.find?_cons_of_neg _ (by simpa using Ne.symm h),
        List.find?_cons_of_neg _ (by simp [hkv, Ne.symm h])]
      exact ih
    · rw [List.map_cons, if_neg (by simpa using hkv)]
      by_cases hk : kv.1 = k
      · rw [List.find?_cons_of_pos _ (by simpa using hk),
          List.find?_cons_of_pos _ (by simpa using hk)]
      · rw [List.find?_cons_of_neg _ (by simpa using hk),
          List.find?_cons_of_neg _ (by simpa using hk)]
        exact ih

/-- The append branch of `dictSet` does not disturb the lookup of a
different key. -/
theorem find_append_single_ne (b : String) {k a : String} (h : k ≠ a) :
    ∀ m : List (String × String),
      List.find? (fun kv => kv.1 == k) (m ++ [(a, b)]) =
      List.find? (fun kv => kv.1 == k) m := by
  intro m
  induction m with
  | nil =>
    rw [List.nil_append, List.find?_cons_of_neg _ (by simpa using Ne.symm h)]
  | cons kv rest ih =>
    rw [List.cons_append]
    by_cases hk : kv.1 = k
    · rw [List.find?_cons_of_pos _ (by simpa using hk),
        List.find?_cons_of_pos _ (by simpa using hk)]
    · rw [List.find?_cons_of_neg _ (by simpa using hk),
        List.find?_cons_of_neg _ (by simpa using hk)]
      exact ih

/-- Writing a different key does not change a lookup. -/
theorem dictLookup_dictSet_ne (m : List (String × String)) {k a : String}
    (b : String) (h : k ≠ a) :
    dictLookup (dictSet m a b) k = dictLookup m k := by
  unfold dictSet dictLookup
  by_cases hany : (m.any fun kv => kv.1 == a) = true
  · rw [if_pos hany, find_replace_ne b h m]
  · rw [if_neg hany, find_append_single_ne b h m]

/-- Folding a result list into a dict leaves every key outside the result's
key set untouched. -/
theorem dictLookup_foldl_of_not_mem :
    ∀ (news : List (String × String)) (old : List (String × String))
      {k : String}, k ∉ news.map Prod.fst →
      dictLookup (news.foldl (fun m kv => dictSet m kv.1 kv.2) old) k =
        dictLookup old k := by
  intro news
  induction news with
  | nil => intro old k _; rfl
  | cons kv rest ih =>
    intro old k hk
    simp only [List.map_cons, List.mem_cons] at hk
    push_neg at hk
    simp only [List.foldl_cons]
    rw [ih _ hk.2, dictLookup_dictSet_ne _ _ hk.1]

/-- The stage keys of a cascade are the targeted persona keys, in order. -/
theorem cascadeStages_map_fst
    (ask : String → String → Except String String) (role : String → String)
    (question : String) :
    ∀ (st : Nat) (prev : String) (l : List (String × String)),
      (cascadeStages ask role question st prev l).map (fun s => s.1) =
        l.map Prod.fst := by
  intro st prev l
  induction l generalizing st prev with
  | nil => rfl
  | cons kv rest ih => simp [cascadeStages, ih]

/-- One partitioning step only appends the current persona to one of the
two teams. -/
theorem assignStep_subset (stance bias : String → String)
    (acc : List (String × String) × List (String × String))
    (kv : String × String) :
    (assignStep stance bias acc kv).1 ⊆ acc.1 ++ [kv] ∧
    (assignStep stance bias acc kv).2 ⊆ acc.2 ++ [kv] := by
  unfold assignStep
  split
  · exact ⟨List.subset_append_left _ _, List.Subset.refl _⟩
  · split
    · exact ⟨List.Subset.refl _, List.subset_append_left _ _⟩
    · split
      · exact ⟨List.subset_append_left _ _, List.Subset.refl _⟩
      · exact ⟨List.Subset.refl _, List.subset_append_left _ _⟩

/-- Both teams produced by the partitioning fold consist of the
accumulator's members and targeted personas. -/
theorem assignTeams_foldl_subset (stance bias : String → String) :
    ∀ (l : List (String × String))
      (acc : List (String × String) × List (String × String)),
      (l.foldl (assignStep stance bias) acc).1 ⊆ acc.1 ++ l ∧
      (l.foldl (assignStep stance bias) acc).2 ⊆ acc.2 ++ l := by
  intro l
  induction l with
  | nil => intro acc; constructor <;> simp
  | cons kv rest ih =>
    intro acc
    simp only [List.foldl_cons]
    have hs := assignStep_subset stance bias acc kv
    have hmerge : ∀ (s t : List (String × String)),
        s ⊆ t ++ [kv] → s ++ rest ⊆ t ++ kv :: rest := by
      intro s t hst x hx
      rcases List.mem_append.mp hx with h1 | h1
      · rcases List.mem_append.mp (hst h1) with h2 | h2
        · exact List.mem_append.mpr (Or.inl h2)
        · rcases List.mem_singleton.mp h2 with rfl
          exact List.mem_append.mpr (Or.inr (List.mem_cons_self _ _))
      · exact List.mem_append.mpr (Or.inr (List.mem_cons_of_mem _ h1))
    exact ⟨(ih _).1.trans (hmerge _ _ hs.1), (ih _).2.trans (hmerge _ _ hs.2)⟩

/-- Members of the balanced teams are targeted personas. -/
theorem redBlueTeams_subset (stance bias : String → String)
    (active : List (String × String)) :
    (redBlueTeams stance bias active).1 ⊆ active ∧
    (redBlueTeams stance bias active).2 ⊆ active := by
  have h0 := assignTeams_foldl_subset stance bias active ([], [])
  simp only [List.nil_append] at h0
  have hb : (assignTeams stance bias active).1 ⊆ active := h0.1
  have hr : (assignTeams stance bias active).2 ⊆ active := h0.2
  unfold redBlueTeams balanceTeams
  cases hA : assignTeams stance bias active with
  | mk blue red =>
    rw [hA] at hb hr
    cases blue with
    | nil =>
      cases red with
      | nil => exact ⟨hb, hr⟩
      | cons r rs =>
        constructor
        · intro x hx
          simp only [List.mem_singleton] at hx
          exact hr (hx ▸ List.mem_cons_self r rs)
        · intro x hx
          exact hr (List.mem_cons_of_mem r hx)
    | cons b bs =>
      cases red with
      | nil =>
        constructor
        · intro x hx
          exact hb (List.dropLast_sublist (b :: bs) |>.mem hx)
        · intro x hx
          simp only [List.mem_singleton] at hx
          exact hb (hx ▸ List.getLast_mem (List.cons_ne_nil b bs))
      | cons r rs => exact ⟨hb, hr⟩

/-- C1 fails on the code for the independent strategy: with
`last_results = {"a": "old"}`, an independent query targeting only
persona `"b"` leaves the stale entry for `"a"` in place — the mapping is
merged, not fully overwritten to the targeted key set. -/
theorem independent_update_keeps_stale_key_cex :
    independentSessionUpdate [("a", "old")] (fun _ _ => Except.ok "new") "q"
        [("b", "nbB")] = [("a", "old"), ("b", "new")] ∧
    dictLookup (independentSessionUpdate [("a", "old")]
        (fun _ _ => Except.ok "new") "q" [("b", "nbB")]) "a" = some "old" := by
  constructor <;> rfl

/-- C1 as amended: only the cascading strategy fully overwrites the
session's most-recent-answer mapping (afterwards it has entries exactly for
the targeted keys); the independent and red/blue strategies merge
key-by-key, so an entry for a key outside the targeted set survives with
its old answer. -/
theorem latest_answer_update_discipline
    (ask : String → String → Except String String)
    (role stance bias : String → String)
    (question bluePrompt redPrompt : String)
    (active old : List (String × String)) (k v : String)
    (hk : k ∉ active.map Prod.fst) (hv : dictLookup old k = some v) :
    dictLookup (independentSessionUpdate old ask question active) k
      = some v ∧
    dictLookup (cascadingSessionUpdate ask role question active) k = none ∧
    dictLookup (redBlueSessionUpdate old ask stance bias bluePrompt
      redPrompt active) k = some v := by
  refine ⟨?_, ?_, ?_⟩
  · unfold independentSessionUpdate
    rw [dictLookup_foldl_of_not_mem]
    · exact hv
    · simpa [_query_independent, List.map_map, Function.comp] using hk
  · unfold cascadingSessionUpdate
    rw [dictLookup_foldl_of_not_mem]
    · rfl
    · unfold _query_cascading
      rw [List.map_map]
      have hfst : ((cascadeStages ask role question 1 "" active).map
          (Prod.fst ∘ fun s => (s.1, s.2.2))) =
          (cascadeStages ask role question 1 "" active).map
            (fun s => s.1) := rfl
      rw [hfst, cascadeStages_map_fst]
      exact hk
  · unfold redBlueSessionUpdate
    have hsub := redBlueTeams_subset stance bias active
    have hteam : ∀ (team : List (String × String)) (prompt : String),
        team ⊆ active →
        k ∉ (askTeam ask prompt team).map Prod.fst := by
      intro team prompt hts hmem
      simp only [askTeam, List.map_map, Function.comp] at hmem
      rcases List.mem_map.mp hmem with ⟨kv, hkv, hfst⟩
      exact hk (List.mem_map.mpr ⟨kv, hts hkv, hfst⟩)
    rw [dictLookup_foldl_of_not_mem _ _
        (hteam _ redPrompt hsub.2),
      dictLookup_foldl_of_not_mem _ _ (hteam _ bluePrompt hsub.1)]
    exact hv

/-- Witness for C1's amended statement at a concrete session. -/
theorem latest_answer_update_discipline_witness :
    dictLookup (independentSessionUpdate [("a", "old")]
        (fun _ _ => Except.ok "new") "q" [("b", "nbB")]) "a"
      = some "old" := by
  exact (latest_answer_update_discipline (fun _ _ => Except.ok "new")
    (fun _ => "r") (fun _ => "neutral") (fun _ => "balanced") "q" "bp" "rp"
    [("b", "nbB")] [("a", "old")] "a" "old" (by decide) rfl).1

/-! ## Independent strategy (C4) -/

/-- C4: an independent query over N targeted personas produces exactly N
per-persona entries, in order; a failing ask yields the inline error marker
in that persona's slot; and one persona's entry depends only on its own
ask's outcome — two backends agreeing on one persona's notebook produce the
same entry for that persona, whatever they do elsewhere. -/
theorem independent_query_entries
    (ask ask2 : String → String → Except String String) (question : String)
    (active : List (String × String)) :
    (_query_independent ask question active).length = active.length ∧
    (∀ (i : Nat) (h : i < active.length)
        (h2 : i < (_query_independent ask question active).length),
      (_query_independent ask question active).get ⟨i, h2⟩ =
        ((active.get ⟨i, h⟩).1,
          renderAnswer (ask (active.get ⟨i, h⟩).2 question))) ∧
    (∀ (i : Nat) (h : i < active.length)
        (h2 : i < (_query_independent ask question active).length)
        (e : String),
      ask (active.get ⟨i, h⟩).2 question = Except.error e →
      (_query_independent ask question active).get ⟨i, h2⟩ =
        ((active.get ⟨i, h⟩).1, errorMarker e)) ∧
    (∀ (i : Nat) (h : i < active.length)
        (h2 : i < (_query_independent ask question active).length)
        (h3 : i < (_query_independent ask2 question active).length),
      ask (active.get ⟨i, h⟩).2 question =
        ask2 (active.get ⟨i, h⟩).2 question →
      (_query_independent ask question active).get ⟨i, h2⟩ =
        (_query_independent ask2 question active).get ⟨i, h3⟩) := by
  refine ⟨?_, ?_, ?_, ?_⟩
  · simp [_query_independent]
  · intro i h h2
    simp [_query_independent, List.get_eq_getElem]
  · intro i h h2 e he
    rw [List.get_eq_getElem] at he
    simp [_query_independent, List.get_eq_getElem, he, renderAnswer]
  · intro i h h2 h3 heq
    rw [List.get_eq_getElem] at heq
    simp [_query_independent, List.get_eq_getElem, heq]

/-- Witness for C4: two targeted personas, the second one's backend ask
fails; its slot carries the error marker. -/
theorem independent_query_entries_witness :
    (_query_independent (fun nb _ => if nb == "n2" then Except.error "boom"
        else Except.ok "fine") "q" [("a", "n1"), ("b", "n2")]).get
      ⟨1, by decide⟩ = ("b", errorMarker "boom") :=
  (independent_query_entries
    (fun nb _ => if nb == "n2" then Except.error "boom" else Except.ok "fine")
    (fun nb _ => if nb == "n2" then Except.error "boom" else Except.ok "fine")
    "q" [("a", "n1"), ("b", "n2")]).2.2.1 1 (by decide) (by decide)
    "boom" rfl

/-! ## Red/blue team partition (C6) -/

/-- The accumulated teams only grow along the partitioning fold. -/
theorem assignTeams_foldl_mono (stance bias : String → String) :
    ∀ (l : List (String × String))
      (acc : List (String × String) × List (String × String)),
      acc.1 ⊆ (l.foldl (assignStep stance bias) acc).1 ∧
      acc.2 ⊆ (l.foldl (assignStep stance bias) acc).2 := by
  intro l
  induction l with
  | nil => intro acc; exact ⟨List.Subset.refl _, List.Subset.refl _⟩
  | cons kv rest ih =>
    intro acc
    simp only [List.foldl_cons]
    have hstep : acc.1 ⊆ (assignStep stance bias acc kv).1 ∧
        acc.2 ⊆ (assignStep stance bias acc kv).2 := by
      unfold assignStep
      split
      · exact ⟨List.Subset.refl _, List.subset_append_left _ _⟩
      · split
        · exact ⟨List.subset_append_left _ _, List.Subset.refl _⟩
        · split
          · exact ⟨List.Subset.refl _, List.subset_append_left _ _⟩
          · exact ⟨List.subset_append_left _ _, List.Subset.refl _⟩
    exact ⟨hstep.1.trans (ih _).1, hstep.2.trans (ih _).2⟩

/-- A persona whose stance is red, or whose stance is neutral with a
counter-evidence or regulatory bias, ends up on the red side of the fold. -/
theorem assignTeams_foldl_mem_red (stance bias : String → String) :
    ∀ (l : List (String × String))
      (acc : List (String × String) × List (String × String))
      (kv : String × String), kv ∈ l →
      (stance kv.1 = "red" ∨ (stance kv.1 ≠ "red" ∧ stance kv.1 ≠ "blue" ∧
        (bias kv.1 = "counter_evidence" ∨ bias kv.1 = "regulatory"))) →
      kv ∈ (l.foldl (assignStep stance bias) acc).2 := by
  intro l
  induction l with
  | nil => intro acc kv hkv; cases hkv
  | cons a rest ih =>
    intro acc kv hkv hcond
    simp only [List.foldl_cons]
    rcases List.mem_cons.mp hkv with rfl | hmem
    · have hin : kv ∈ (assignStep stance bias acc kv).2 := by
        unfold assignStep
        rcases hcond with hred | ⟨hnr, hnb, hbias⟩
        · rw [if_pos (by simpa using hred)]
          exact List.mem_append.mpr (Or.inr (List.mem_singleton.mpr rfl))
        · rw [if_neg (by simpa using hnr), if_neg (by simpa using hnb),
            if_pos (by simpa using hbias)]
          exact List.mem_append.mpr (Or.inr (List.mem_singleton.mpr rfl))
      exact (assignTeams_foldl_mono stance bias rest _).2 hin
    · exact ih _ kv hmem hcond

/-- A persona whose stance is blue, or whose stance is neutral with any
other bias, ends up on the blue side of the fold. -/
theorem assignTeams_foldl_mem_blue (stance bias : String → String) :
    ∀ (l : List (String × String))
      (acc : List (String × String) × List (String × String))
      (kv : String × String), kv ∈ l →
      (stance kv.1 = "blue" ∨ (stance kv.1 ≠ "red" ∧ stance kv.1 ≠ "blue" ∧
        bias kv.1 ≠ "counter_evidence" ∧ bias kv.1 ≠ "regulatory")) →
      kv ∈ (l.foldl (assignStep stance bias) acc).1 := by
  intro l
  induction l with
  | nil => intro acc kv hkv; cases hkv
  | cons a rest ih =>
    intro acc kv hkv hcond
    simp only [List.foldl_cons]
    rcases List.mem_cons.mp hkv with rfl | hmem
    · have hin : kv ∈ (assignStep stance bias acc kv).1 := by
        unfold assignStep
        rcases hcond with hblue | ⟨hnr, hnb, hb1, hb2⟩
        · have hnr : (stance kv.1 == "red") = false := by
            simp only [beq_eq_false_iff_ne, ne_eq, hblue]
            decide
          rw [if_neg (by simp [hnr]), if_pos (by simpa using hblue)]
          exact List.mem_append.mpr (Or.inr (List.mem_singleton.mpr rfl))
        · rw [if_neg (by simpa using hnr), if_neg (by simpa using hnb),
            if_neg (by simp [hb1, hb2])]
          exact List.mem_append.mpr (Or.inr (List.mem_singleton.mpr rfl))
      exact (assignTeams_foldl_mono stance bias rest _).1 hin
    · exact ih _ kv hmem hcond

/-- The partitioning fold distributes each targeted persona to exactly one
team. -/
theorem assignTeams_foldl_length (stance bias : String → String) :
    ∀ (l : List (String × String))
      (acc : List (String × String) × List (String × String)),
      (l.foldl (assignStep stance bias) acc).1.length +
        (l.foldl (assignStep stance bias) acc).2.length =
      acc.1.length + acc.2.length + l.length := by
  intro l
  induction l with
  | nil => intro acc; simp
  | cons kv rest ih =>
    intro acc
    simp only [List.foldl_cons]
    rw [ih]
    have : (assignStep stance bias acc kv).1.length +
        (assignStep stance bias acc kv).2.length =
        acc.1.length + acc.2.length + 1 := by
      unfold assignStep
      split
      · simp; omega
      · split
        · simp; omega
        · split
          · simp; omega
          · simp; omega
    rw [this]
    simp only [List.length_cons]
    omega

/-- C6 fails on the code in its last clause: with exactly ONE targeted
persona of critical stance, the partition gives red = [persona], blue = [],
and the repair moves that sole member to blue — leaving the red team empty
although a persona was targeted. -/
theorem red_blue_single_persona_cex :
    redBlueTeams (fun _ => "red") (fun _ => "balanced") [("a", "n1")] =
      ([("a", "n1")], []) ∧
    (redBlueTeams (fun _ => "red") (fun _ => "balanced") [("a", "n1")]).2
      = [] := by
  constructor <;> rfl

/-- C6 as amended: stances partition the targeted personas exactly as
claimed (red stance → red team, blue stance → blue team, neutral with
counter-evidence/regulatory bias → red team, other neutrals → blue team);
when exactly one team is empty, exactly one member moves — the FIRST red
member to blue, or the LAST blue member to red; and neither team ends
empty whenever at least TWO personas are targeted (with exactly one
targeted persona the move necessarily leaves the source team empty). -/
theorem red_blue_partition_balance (stance bias : String → String)
    (active : List (String × String)) :
    (∀ kv ∈ active,
      (stance kv.1 = "red" → kv ∈ (assignTeams stance bias active).2) ∧
      (stance kv.1 = "blue" → kv ∈ (assignTeams stance bias active).1) ∧
      (stance kv.1 ≠ "red" → stance kv.1 ≠ "blue" →
        (bias kv.1 = "counter_evidence" ∨ bias kv.1 = "regulatory") →
        kv ∈ (assignTeams stance bias active).2) ∧
      (stance kv.1 ≠ "red" → stance kv.1 ≠ "blue" →
        bias kv.1 ≠ "counter_evidence" → bias kv.1 ≠ "regulatory" →
        kv ∈ (assignTeams stance bias active).1)) ∧
    (∀ r rs, assignTeams stance bias active = ([], r :: rs) →
      redBlueTeams stance bias active = ([r], rs)) ∧
    (∀ b bs, assignTeams stance bias active = (b :: bs, []) →
      redBlueTeams stance bias active =
        ((b :: bs).dropLast, [(b :: bs).getLast (List.cons_ne_nil b bs)])) ∧
    (∀ blue red, assignTeams stance bias active = (blue, red) →
      blue ≠ [] → red ≠ [] →
      redBlueTeams stance bias active = (blue, red)) ∧
    (2 ≤ active.length →
      (redBlueTeams stance bias active).1 ≠ [] ∧
      (redBlueTeams stance bias active).2 ≠ []) := by
  refine ⟨?_, ?_, ?_, ?_, ?_⟩
  · intro kv hkv
    refine ⟨?_, ?_, ?_, ?_⟩
    · intro hs
      exact assignTeams_foldl_mem_red stance bias active _ kv hkv (Or.inl hs)
    · intro hs
      exact assignTeams_foldl_mem_blue stance bias active _ kv hkv (Or.inl hs)
    · intro h1 h2 h3
      exact assignTeams_foldl_mem_red stance bias active _ kv hkv
        (Or.inr ⟨h1, h2, h3⟩)
    · intro h1 h2 h3 h4
      exact assignTeams_foldl_mem_blue stance bias active _ kv hkv
        (Or.inr ⟨h1, h2, h3, h4⟩)
  · intro r rs hA
    unfold redBlueTeams balanceTeams
    rw [hA]
  · intro b bs hA
    unfold redBlueTeams balanceTeams
    rw [hA]
  · intro blue red hA hblue hred
    unfold redBlueTeams balanceTeams
    rw [hA]
    cases blue with
    | nil => exact absurd rfl hblue
    | cons b bs =>
      cases red with
      | nil => exact absurd rfl hred
      | cons r rs => rfl
  · intro h2
    have hlen := assignTeams_foldl_length stance bias active ([], [])
    simp only [List.length_nil, Nat.zero_add] at hlen
    unfold redBlueTeams balanceTeams
    cases hA : assignTeams stance bias active with
    | mk blue red =>
      unfold assignTeams at hA
      rw [hA] at hlen
      simp only at hlen
      cases blue with
      | nil =>
        cases red with
        | nil => simp at hlen; omega
        | cons r rs =>
          simp only [List.length_nil, List.length_cons] at hlen
          constructor
          · simp
          · simp only [ne_eq]
            intro hrs
            rw [hrs] at hlen
            simp at hlen
            omega
      | cons b bs =>
        cases red with
        | nil =>
          simp only [List.length_nil, List.length_cons] at hlen
          constructor
          · simp only [ne_eq]
            intro hdrop
            have hlen2 := congrArg List.length hdrop
            rw [List.length_dropLast] at hlen2
            simp only [List.length_cons, List.length_nil] at hlen2
            omega
          · simp
        | cons r rs => simp

/-- Witness for C6's amended statement: two critical-stance personas; after
the repair both teams are non-empty. -/
theorem red_blue_partition_balance_witness :
    (redBlueTeams (fun _ => "red") (fun _ => "balanced")
        [("a", "n1"), ("b", "n2")]).1 ≠ [] ∧
    (redBlueTeams (fun _ => "red") (fun _ => "balanced")
        [("a", "n1"), ("b", "n2")]).2 ≠ [] :=
  (red_blue_partition_balance (fun _ => "red") (fun _ => "balanced")
    [("a", "n1"), ("b", "n2")]).2.2.2.2 (by decide)

/-! ## Cascading strategy (C5) -/

/-- A cascade has one stage per targeted persona, whatever the backend
does. -/
theorem cascadeStages_length
    (ask : String → String → Except String String) (role : String → String)
    (question : String) :
    ∀ (st : Nat) (prev : String) (l : List (String × String)),
      (cascadeStages ask role question st prev l).length = l.length := by
  intro st prev l
  induction l generalizing st prev with
  | nil => rfl
  | cons kv rest ih => simp [cascadeStages, ih]

/-- Every stage after the first receives the cascading prompt built from
the previous stage's answer and the next persona's role. -/
theorem cascadeStages_chain
    (ask : String → String → Except String String) (role : String → String)
    (question : String) :
    ∀ (l : List (String × String)) (st : Nat) (prev : String) (i : Nat)
      (h1 : i + 1 < (cascadeStages ask role question st prev l).length)
      (ha : i + 1 < l.length)
      (h0 : i < (cascadeStages ask role question st prev l).length),
      1 ≤ st →
      ((cascadeStages ask role question st prev l).get ⟨i + 1, h1⟩).2.1 =
        cascadePrompt question (role ((l.get ⟨i + 1, ha⟩).1))
          (((cascadeStages ask role question st prev l).get ⟨i, h0⟩).2.2) := by
  intro l
  induction l with
  | nil =>
    intro st prev i h1 ha h0 hst
    simp [cascadeStages] at h1
  | cons kv rest ih =>
    intro st prev i h1 ha h0 hst
    cases rest with
    | nil =>
      simp [List.length_cons] at ha
    | cons kv2 r2 =>
      cases i with
      | zero =>
        have hne : (st + 1 == 1) = false := by
          simp only [beq_eq_false_iff_ne, ne_eq]
          omega
        simp [cascadeStages, List.get_eq_getElem, hne]
      | succ j =>
        have h1' : j + 1 <
            (cascadeStages ask role question (st + 1)
              (match ask kv.2 (if st == 1 then question
                else cascadePrompt question (role kv.1) prev) with
               | Except.ok a => a
               | Except.error e => stageErrorMarker st e)
              (kv2 :: r2)).length := by
          rw [cascadeStages_length]
          rw [cascadeStages_length] at h1
          simpa using h1
        have ha' : j + 1 < (kv2 :: r2).length := by
          simpa using ha
        have h0' : j <
            (cascadeStages ask role question (st + 1)
              (match ask kv.2 (if st == 1 then question
                else cascadePrompt question (role kv.1) prev) with
               | Except.ok a => a
               | Except.error e => stageErrorMarker st e)
              (kv2 :: r2)).length := by
          rw [cascadeStages_length]
          rw [cascadeStages_length] at h0
          simpa using h0
        have := ih (st + 1) (match ask kv.2 (if st == 1 then question
            else cascadePrompt question (role kv.1) prev) with
          | Except.ok a => a
          | Except.error e => stageErrorMarker st e) j h1' ha' h0'
          (by omega)
        simpa [cascadeStages, List.get_eq_getElem] using this

/-- A failed ask at any stage yields that stage's error marker as the
stage's recorded answer (with 1-based stage numbering `st + i`). -/
theorem cascadeStages_error
    (ask : String → String → Except String String) (role : String → String)
    (question : String) :
    ∀ (l : List (String × String)) (st : Nat) (prev : String) (i : Nat)
      (h : i < (cascadeStages ask role question st prev l).length)
      (ha : i < l.length) (e : String),
      ask ((l.get ⟨i, ha⟩).2)
          (((cascadeStages ask role question st prev l).get ⟨i, h⟩).2.1) =
        Except.error e →
      ((cascadeStages ask role question st prev l).get ⟨i, h⟩).2.2 =
        stageErrorMarker (st + i) e := by
  intro l
  induction l with
  | nil =>
    intro st prev i h ha e he
    simp [cascadeStages] at h
  | cons kv rest ih =>
    intro st prev i h ha e he
    cases i with
    | zero =>
      simp only [cascadeStages, List.get_eq_getElem, List.getElem_cons_zero]
        at he ⊢
      rw [he]
      simp
    | succ j =>
      have h' : j < (cascadeStages ask role question (st + 1)
          (match ask kv.2 (if st == 1 then question
            else cascadePrompt question (role kv.1) prev) with
           | Except.ok a => a
           | Except.error e => stageErrorMarker st e) rest).length := by
        rw [cascadeStages_length]
        rw [cascadeStages_length] at h
        simpa using h
      have ha' : j < rest.length := by simpa using ha
      have hrec := ih (st + 1) (match ask kv.2 (if st == 1 then question
          else cascadePrompt question (role kv.1) prev) with
        | Except.ok a => a
        | Except.error e => stageErrorMarker st e) j h' ha' e
      have harg : ask ((rest.get ⟨j, ha'⟩).2)
          (((cascadeStages ask role question (st + 1) _ rest).get
            ⟨j, h'⟩).2.1) = Except.error e := by
        simpa [cascadeStages, List.get_eq_getElem] using he
      have := hrec harg
      have hm : st + 1 + j = st + (j + 1) := by omega
      rw [hm] at this
      simpa [cascadeStages, List.get_eq_getElem] using this

/-- C5: stage 1's prompt is the original question verbatim; stage k+1's
prompt is the cascading prompt built from stage k's answer, which embeds a
truncated (≤ 2000 characters) excerpt of that answer and ends with the
original question; a failed stage does not halt the cascade — the cascade
still has one stage per persona, the failed stage records its error marker,
and (by the chain equation) that marker is the previous answer embedded in
the next stage's prompt. -/
theorem cascading_prompt_chain
    (ask : String → String → Except String String) (role : String → String)
    (question : String) (active : List (String × String)) :
    (_query_cascading ask role question active).length = active.length ∧
    (∀ h : 0 < (_query_cascading ask role question active).length,
      ((_query_cascading ask role question active).get ⟨0, h⟩).2.1 =
        question) ∧
    (∀ (i : Nat)
        (h1 : i + 1 < (_query_cascading ask role question active).length)
        (ha : i + 1 < active.length)
        (h0 : i < (_query_cascading ask role question active).length),
      ((_query_cascading ask role question active).get ⟨i + 1, h1⟩).2.1 =
        cascadePrompt question (role ((active.get ⟨i + 1, ha⟩).1))
          (((_query_cascading ask role question active).get
            ⟨i, h0⟩).2.2)) ∧
    (∀ (r prev : String),
      (truncateAnswer prev).length ≤ 2000 ∧
      (∃ u w, cascadePrompt question r prev =
        u ++ (truncateAnswer prev ++ w)) ∧
      (∃ u2, (cascadePrompt question r prev).data =
        u2 ++ question.data)) ∧
    (∀ (i : Nat)
        (h : i < (_query_cascading ask role question active).length)
        (ha : i < active.length) (e : String),
      ask ((active.get ⟨i, ha⟩).2)
          (((_query_cascading ask role question active).get ⟨i, h⟩).2.1) =
        Except.error e →
      ((_query_cascading ask role question active).get ⟨i, h⟩).2.2 =
        stageErrorMarker (i + 1) e) := by
  refine ⟨?_, ?_, ?_, ?_, ?_⟩
  · exact cascadeStages_length ask role question 1 "" active
  · intro h
    cases active with
    | nil => simp [_query_cascading, cascadeStages] at h
    | cons kv rest => simp [_query_cascading, cascadeStages,
        List.get_eq_getElem]
  · intro i h1 ha h0
    exact cascadeStages_chain ask role question active 1 "" i h1 ha h0
      (by omega)
  · intro r prev
    refine ⟨?_, ?_, ?_⟩
    · show (String.mk (prev.data.take 2000)).length ≤ 2000
      have : (String.mk (prev.data.take 2000)).length =
          (prev.data.take 2000).length := rfl
      rw [this]
      exact (List.length_take 2000 prev.data).le.trans (Nat.min_le_left _ _)
    · refine ⟨"이전 단계의 분석 결과입니다:\n---\n",
        "\n---\n\n당신의 전문 관점(" ++ r ++
          ")에서 위 분석을 보완하고, 간과된 측면이나 다른 해석을 제시하며, "
            ++ "다음 질문에 답해주세요:\n\n" ++ question, ?_⟩
      simp [cascadePrompt, String.append_assoc]
    · refine ⟨("이전 단계의 분석 결과입니다:\n---\n" ++ (truncateAnswer prev ++
        ("\n---\n\n당신의 전문 관점(" ++ (r ++
          (")에서 위 분석을 보완하고, 간과된 측면이나 다른 해석을 제시하며, "
            ++ "다음 질문에 답해주세요:\n\n"))))).data, ?_⟩
      simp [cascadePrompt, String.data_append, List.append_assoc]
  · intro i h ha e he
    have := cascadeStages_error ask role question active 1 "" i h ha e he
    have hm : 1 + i = i + 1 := by omega
    rw [hm] at this
    exact this

/-- Witness for C5 at a concrete 3-persona cascade with an echoing
backend: stage 2's prompt is built from stage 1's answer. -/
theorem cascading_prompt_chain_witness :
    ((_query_cascading (fun nb _ => Except.ok ("ans-" ++ nb))
        (fun _ => "역할") "Q" [("a", "n1"), ("b", "n2"), ("c", "n3")]).get
      ⟨1, by decide⟩).2.1 =
      cascadePrompt "Q" "역할"
        (((_query_cascading (fun nb _ => Except.ok ("ans-" ++ nb))
          (fun _ => "역할") "Q" [("a", "n1"), ("b", "n2"), ("c", "n3")]).get
            ⟨0, by decide⟩).2.2) :=
  (cascading_prompt_chain (fun nb _ => Except.ok ("ans-" ++ nb))
    (fun _ => "역할") "Q" [("a", "n1"), ("b", "n2"), ("c", "n3")]).2.2.1 0
    (by decide) (by decide) (by decide)

/-! ## Recommendation scoring (C7) -/

/-- `Frac.add` is exact rational addition. -/
theorem Frac.toRat_add (a b : Frac) (ha : a.den ≠ 0) (hb : b.den ≠ 0) :
    (a.add b).toRat = a.toRat + b.toRat := by
  unfold Frac.add Frac.toRat
  have ha' : (a.den : ℚ) ≠ 0 := Nat.cast_ne_zero.mpr ha
  have hb' : (b.den : ℚ) ≠ 0 := Nat.cast_ne_zero.mpr hb
  push_cast
  field_simp

/-- Folding exact fraction addition computes the rational sum. -/
theorem Frac.toRat_foldl_add :
    ∀ (l : List Frac) (init : Frac), init.den ≠ 0 →
      (∀ f ∈ l, f.den ≠ 0) →
      (l.foldl Frac.add init).toRat = init.toRat + (l.map Frac.toRat).sum ∧
      (l.foldl Frac.add init).den ≠ 0 := by
  intro l
  induction l with
  | nil =>
    intro init h _
    exact ⟨by simp, h⟩
  | cons f rest ih =>
    intro init h hall
    have hf : f.den ≠ 0 := hall f (List.mem_cons_self f rest)
    have hd : (init.add f).den ≠ 0 := by
      unfold Frac.add
      exact Nat.mul_ne_zero h hf
    obtain ⟨h1, h2⟩ := ih (init.add f) hd
      (fun g hg => hall g (List.mem_cons_of_mem f hg))
    refine ⟨?_, h2⟩
    rw [List.foldl_cons, h1, Frac.toRat_add init f h hf]
    simp only [List.map_cons, List.sum_cons]
    ring

/-- C7: for every topic, a wildcard persona scores exactly 1.0; a
domain-specific persona with empty overlap against the classified domains
is excluded; and a domain-specific persona with non-empty overlap scores
`10 + Σ 1/(rank+1)` over its overlapping domains (rank = that domain's
zero-based position in the classified ordering), a value that is always
≥ the wildcard score 1. -/
theorem persona_scoring_formula (topic : String) (p : PersonaTemplate)
    (hp : p ∈ personaPool) :
    (p.domains.contains "*" = true →
      (scoreOf (classify_domain topic) p).map Frac.toRat = some 1) ∧
    (p.domains.contains "*" = false →
      ((p.domains.filter
          (fun d => (classify_domain topic).contains d)).isEmpty = true →
        scoreOf (classify_domain topic) p = none) ∧
      (∀ s, scoreOf (classify_domain topic) p = some s →
        s.toRat = 10 + ((p.domains.filter
            (fun d => (classify_domain topic).contains d)).map
          (fun d => (1 : ℚ) /
            (((classify_domain topic).indexOf d : ℚ) + 1))).sum ∧
        (1 : ℚ) ≤ s.toRat)) := by
  constructor
  · intro hw
    unfold scoreOf
    rw [if_pos hw]
    simp [Frac.toRat]
  · intro hw
    constructor
    · intro hempty
      unfold scoreOf
      rw [if_neg (by simpa using hw), if_pos hempty]
    · intro s hs
      unfold scoreOf at hs
      rw [if_neg (by simpa using hw)] at hs
      by_cases hempty : (p.domains.filter
          (fun d => (classify_domain topic).contains d)).isEmpty
      · rw [if_pos hempty] at hs
        cases hs
      · rw [if_neg hempty] at hs
        have hs' := Option.some.inj hs
        have hfold := Frac.toRat_foldl_add
          ((p.domains.filter (fun d => (classify_domain topic).contains d)).map
            (fun d => (⟨1, (classify_domain topic).indexOf d + 1⟩ : Frac)))
          (⟨10, 1⟩ : Frac) (by simp)
          (by
            intro f hf
            rcases List.mem_map.mp hf with ⟨d, _, rfl⟩
            simp)
        have hinit : ((⟨10, 1⟩ : Frac)).toRat = 10 := by
          simp [Frac.toRat]
        have hmap : (((p.domains.filter
            (fun d => (classify_domain topic).contains d)).map
              (fun d => (⟨1, (classify_domain topic).indexOf d + 1⟩ :
                Frac))).map
            Frac.toRat) =
            (p.domains.filter
              (fun d => (classify_domain topic).contains d)).map
            (fun d => (1 : ℚ) /
              (((classify_domain topic).indexOf d : ℚ) + 1)) := by
          rw [List.map_map]
          apply List.map_congr_left
          intro d _
          simp [Frac.toRat, Function.comp]
        have hsum : s.toRat = 10 + ((p.domains.filter
            (fun d => (classify_domain topic).contains d)).map
          (fun d => (1 : ℚ) /
            (((classify_domain topic).indexOf d : ℚ) + 1))).sum := by
          rw [← hs', hfold.1, hinit, hmap]
        refine ⟨hsum, ?_⟩
        rw [hsum]
        have hnn : (0 : ℚ) ≤ ((p.domains.filter
            (fun d => (classify_domain topic).contains d)).map
          (fun d => (1 : ℚ) /
            (((classify_domain topic).indexOf d : ℚ) + 1))).sum := by
          apply List.sum_nonneg
          intro x hx
          rcases List.mem_map.mp hx with ⟨d, _, rfl⟩
          positivity
        linarith

/-- Witness for C7: the wildcard persona `devil_advocate` scores exactly 1
on the keyword-free topic `"zzz"`. -/
theorem persona_scoring_formula_witness :
    (scoreOf (classify_domain "zzz") (personaPool.get ⟨0, by decide⟩)).map
      Frac.toRat = some 1 :=
  (persona_scoring_formula "zzz" (personaPool.get ⟨0, by decide⟩)
    (by decide)).1 (by decide)

/-! ## Selection invariants (C3, C8) -/

/-- Invariant preservation along a left fold. -/
theorem foldl_inv {α σ : Type} (P : σ → Prop) (f : σ → α → σ) :
    ∀ (l : List α) (s : σ), P s → (∀ s' a, a ∈ l → P s' → P (f s' a)) →
      P (l.foldl f s) := by
  intro l
  induction l with
  | nil => intro s h _; exact h
  | cons a rest ih =>
    intro s h hs
    exact ih (f s a) (hs s a (List.mem_cons_self a rest) h)
      (fun s' b hb h' => hs s' b (List.mem_cons_of_mem a hb) h')

/-- Team counts add over list append. -/
theorem countTeam_append (t : String) (l1 l2 : List PersonaTemplate) :
    countTeam t (l1 ++ l2) = countTeam t l1 + countTeam t l2 := by
  unfold countTeam
  rw [List.filter_append, List.length_append]

/-- Team count of a cons. -/
theorem countTeam_cons (t : String) (p : PersonaTemplate)
    (l : List PersonaTemplate) :
    countTeam t (p :: l) =
      (if p.red_blue == t then 1 else 0) + countTeam t l := by
  unfold countTeam
  rw [List.filter_cons]
  by_cases h : p.red_blue == t
  · simp [h]
    omega
  · simp [h]

/-- A member of team `t` makes the team count positive. -/
theorem countTeam_pos_of_mem {t : String} {q : PersonaTemplate}
    {sel : List PersonaTemplate} (hq : q ∈ sel) (ht : q.red_blue = t) :
    1 ≤ countTeam t sel := by
  unfold countTeam
  have : q ∈ sel.filter (fun p => p.red_blue == t) :=
    List.mem_filter.mpr ⟨hq, by simp [ht]⟩
  exact List.length_pos.mpr (List.ne_nil_of_mem this)

/-- Dropping elements cannot increase a team count. -/
theorem countTeam_sublist {t : String} {l1 l2 : List PersonaTemplate}
    (h : l1.Sublist l2) : countTeam t l1 ≤ countTeam t l2 :=
  List.Sublist.length_le (List.Sublist.filter _ h)

/-- Each stance's count is bounded by the list length, and the three
stances partition a pool-drawn selection. -/
theorem countTeam_partition :
    ∀ (sel : List PersonaTemplate),
      (∀ q ∈ sel, q.red_blue = "red" ∨ q.red_blue = "blue" ∨
        q.red_blue = "neutral") →
      countTeam "red" sel + countTeam "blue" sel +
        countTeam "neutral" sel = sel.length := by
  intro sel
  induction sel with
  | nil => intro _; rfl
  | cons q rest ih =>
    intro h
    have hq := h q (List.mem_cons_self q rest)
    have hr := ih (fun x hx => h x (List.mem_cons_of_mem q hx))
    rcases hq with hq | hq | hq <;>
      simp [countTeam_cons, hq, List.length_cons] <;> omega

/-- Elements of a descending insertion come from the inserted element and
the base list. -/
theorem insertDesc_subset {α : Type} (le : α → α → Bool) (x : α) :
    ∀ l : List α, insertDesc le x l ⊆ x :: l := by
  intro l
  induction l with
  | nil => simp [insertDesc]
  | cons y ys ih =>
    unfold insertDesc
    split
    · intro z hz
      rcases List.mem_cons.mp hz with rfl | hz2
      · exact List.mem_cons_of_mem _ (List.mem_cons_self _ _)
      · rcases List.mem_cons.mp (ih hz2) with rfl | hz3
        · exact List.mem_cons_self _ _
        · exact List.mem_cons_of_mem _ (List.mem_cons_of_mem _ hz3)
    · exact List.Subset.refl _

/-- Elements of the stable sort come from the original list. -/
theorem sortDesc_foldl_subset {α : Type} (le : α → α → Bool) :
    ∀ (l acc : List α),
      l.foldl (fun acc x => insertDesc le x acc) acc ⊆ acc ++ l := by
  intro l
  induction l with
  | nil => intro acc; simp
  | cons x xs ih =>
    intro acc
    simp only [List.foldl_cons]
    intro z hz
    rcases List.mem_append.mp (ih (insertDesc le x acc) hz) with h1 | h1
    · rcases List.mem_cons.mp (insertDesc_subset le x acc h1) with rfl | h2
      · exact List.mem_append.mpr (Or.inr (List.mem_cons_self _ _))
      · exact List.mem_append.mpr (Or.inl h2)
    · exact List.mem_append.mpr (Or.inr (List.mem_cons_of_mem _ h1))

/-- Every persona the selection loop ranges over is a pool persona. -/
theorem scoredPool_mem_pool (topic : String) :
    ∀ q ∈ scoredPool topic, q ∈ personaPool := by
  intro q hq
  unfold scoredPool at hq
  rcases List.mem_map.mp hq with ⟨pair, hpair, rfl⟩
  have hsub := sortDesc_foldl_subset (fun a b => Frac.ble a.1 b.1)
    (personaPool.filterMap (fun p =>
      match scoreOf (classify_domain topic) p with
      | some s => some (s, p)
      | none => none)) []
  rw [List.nil_append] at hsub
  have hmem := hsub hpair
  rcases List.mem_filterMap.mp hmem with ⟨p, hp, hf⟩
  cases hscore : scoreOf (classify_domain topic) p with
  | none => rw [hscore] at hf; cases hf
  | some s =>
    rw [hscore] at hf
    cases hf
    exact hp

/-- The selection-loop step preserves the loop invariant: bounded length,
capped red/blue team counts, duplicate-free keys, pool membership. -/
theorem selStep_inv (m : Nat) (sel : List PersonaTemplate)
    (p : PersonaTemplate) (hlen : sel.length ≤ m)
    (hred : countTeam "red" sel ≤ maxPerTeam m)
    (hblue : countTeam "blue" sel ≤ maxPerTeam m)
    (hnodup : (sel.map (fun q => q.key)).Nodup)
    (hpool : ∀ q ∈ sel, q ∈ personaPool) (hp : p ∈ personaPool) :
    (selStep m sel p).length ≤ m ∧
    countTeam "red" (selStep m sel p) ≤ maxPerTeam m ∧
    countTeam "blue" (selStep m sel p) ≤ maxPerTeam m ∧
    ((selStep m sel p).map (fun q => q.key)).Nodup ∧
    (∀ q ∈ selStep m sel p, q ∈ personaPool) := by
  unfold selStep
  split
  · exact ⟨hlen, hred, hblue, hnodup, hpool⟩
  · next hfull =>
    split
    · exact ⟨hlen, hred, hblue, hnodup, hpool⟩
    · next hdup =>
      split
      · exact ⟨hlen, hred, hblue, hnodup, hpool⟩
      · next hcapR =>
        split
        · exact ⟨hlen, hred, hblue, hnodup, hpool⟩
        · next hcapB =>
          have hlen2 : (sel ++ [p]).length ≤ m := by
            rw [List.length_append, List.length_singleton]
            omega
          have hkey : p.key ∉ sel.map (fun q => q.key) := by
            simpa using hdup
          have hnodup2 : ((sel ++ [p]).map (fun q => q.key)).Nodup := by
            rw [List.map_append, List.map_singleton]
            rw [List.nodup_append]
            exact ⟨hnodup, List.nodup_singleton _,
              by simpa [List.disjoint_singleton] using hkey⟩
          have hpool2 : ∀ q ∈ sel ++ [p], q ∈ personaPool := by
            intro q hq
            rcases List.mem_append.mp hq with h1 | h1
            · exact hpool q h1
            · rcases List.mem_singleton.mp h1 with rfl
              exact hp
          refine ⟨hlen2, ?_, ?_, hnodup2, hpool2⟩
          · rw [countTeam_append]
            by_cases hpr : p.red_blue = "red"
            · have : ¬ (maxPerTeam m ≤ countTeam "red" sel) := by
                intro hle
                exact hcapR (by simp [hpr, hle])
              have hone : countTeam "red" [p] = 1 := by
                rw [countTeam_cons]
                simp [hpr, countTeam]
              omega
            · have hzero : countTeam "red" [p] = 0 := by
                rw [countTeam_cons]
                simp [hpr, countTeam]
              omega
          · rw [countTeam_append]
            by_cases hpb : p.red_blue = "blue"
            · have : ¬ (maxPerTeam m ≤ countTeam "blue" sel) := by
                intro hle
                exact hcapB (by simp [hpb, hle])
              have hone : countTeam "blue" [p] = 1 := by
                rw [countTeam_cons]
                simp [hpb, countTeam]
              omega
            · have hzero : countTeam "blue" [p] = 0 := by
                rw [countTeam_cons]
                simp [hpb, countTeam]
              omega

/-- The greedy selection pass establishes the loop invariant. -/
theorem selectLoop_inv (m : Nat) (scored : List PersonaTemplate)
    (hpool : ∀ q ∈ scored, q ∈ personaPool) :
    (selectLoop m scored).length ≤ m ∧
    countTeam "red" (selectLoop m scored) ≤ maxPerTeam m ∧
    countTeam "blue" (selectLoop m scored) ≤ maxPerTeam m ∧
    ((selectLoop m scored).map (fun q => q.key)).Nodup ∧
    (∀ q ∈ selectLoop m scored, q ∈ personaPool) := by
  unfold selectLoop
  refine foldl_inv (fun sel => sel.length ≤ m ∧
    countTeam "red" sel ≤ maxPerTeam m ∧
    countTeam "blue" sel ≤ maxPerTeam m ∧
    (sel.map (fun q => q.key)).Nodup ∧
    (∀ q ∈ sel, q ∈ personaPool)) (selStep m) scored [] ?_ ?_
  · exact ⟨Nat.zero_le _, Nat.zero_le _, Nat.zero_le _, List.nodup_nil,
      by intro q hq; cases hq⟩
  · intro sel p hp hinv
    exact selStep_inv m sel p hinv.1 hinv.2.1 hinv.2.2.1 hinv.2.2.2.1
      hinv.2.2.2.2 (hpool p hp)

/-- A successful last-neutral replacement splits the list around the last
neutral entry and substitutes the new persona for it. -/
theorem replaceLastNeutral_spec {q : PersonaTemplate} :
    ∀ {l ys : List PersonaTemplate}, replaceLastNeutral q l = some ys →
      ∃ l1 x l2, l = l1 ++ x :: l2 ∧ x.red_blue = "neutral" ∧
        ys = l1 ++ q :: l2 := by
  intro l
  induction l with
  | nil => intro ys h; cases h
  | cons x xs ih =>
    intro ys h
    unfold replaceLastNeutral at h
    cases hr : replaceLastNeutral q xs with
    | some ys2 =>
      rw [hr] at h
      cases h
      obtain ⟨l1, y, l2, he1, he2, he3⟩ := ih hr
      exact ⟨x :: l1, y, l2, by rw [List.cons_append, ← he1],
        he2, by rw [List.cons_append, ← he3]⟩
    | none =>
      rw [hr] at h
      by_cases hx : x.red_blue == "neutral"
      · rw [if_pos hx] at h
        cases h
        exact ⟨[], x, xs, rfl, by simpa using hx, rfl⟩
      · rw [if_neg hx] at h
        cases h

/-- A failed last-neutral replacement means the selection has no neutral
entry. -/
theorem replaceLastNeutral_none {q : PersonaTemplate} :
    ∀ {l : List PersonaTemplate}, replaceLastNeutral q l = none →
      ∀ x ∈ l, x.red_blue ≠ "neutral" := by
  intro l
  induction l with
  | nil => intro _ x hx; cases hx
  | cons y ys ih =>
    intro h x hx
    unfold replaceLastNeutral at h
    cases hr : replaceLastNeutral q ys with
    | some ys2 => rw [hr] at h; cases h
    | none =>
      rw [hr] at h
      by_cases hy : y.red_blue == "neutral"
      · rw [if_pos hy] at h; cases h
      · rw [if_neg hy] at h
        rcases List.mem_cons.mp hx with rfl | hx2
        · simpa using hy
        · exact ih hr x hx2

/-- Counting a team across a middle-replacement decomposition. -/
theorem countTeam_middle (t : String) (l1 l2 : List PersonaTemplate)
    (x : PersonaTemplate) :
    countTeam t (l1 ++ x :: l2) =
      countTeam t l1 + ((if x.red_blue == t then 1 else 0) +
        countTeam t l2) := by
  rw [countTeam_append, countTeam_cons]

/-- Replacing the last neutral entry by a persona whose key is absent keeps
the key list duplicate-free. -/
theorem nodup_keys_replace {l1 l2 : List PersonaTemplate}
    {x q : PersonaTemplate}
    (h : ((l1 ++ x :: l2).map (fun p => p.key)).Nodup)
    (hq : q.key ∉ (l1 ++ x :: l2).map (fun p => p.key)) :
    ((l1 ++ q :: l2).map (fun p => p.key)).Nodup := by
  rw [List.map_append, List.map_cons] at h hq ⊢
  rw [List.nodup_middle] at h ⊢
  rw [List.nodup_cons] at h ⊢
  rcases h with ⟨hx, hrest⟩
  refine ⟨?_, hrest⟩
  intro hmem
  apply hq
  rcases List.mem_append.mp hmem with h1 | h1
  · exact List.mem_append.mpr (Or.inl h1)
  · exact List.mem_append.mpr (Or.inr (List.mem_cons_of_mem _ h1))

/-- The first balancing pass (`forceRed`) preserves length, pool
membership, key distinctness and the red cap — and on a full selection it
guarantees at least one red persona. -/
theorem forceRed_inv (m : Nat) (sel : List PersonaTemplate) (hm : 1 ≤ m)
    (hlen : sel.length ≤ m)
    (hred : countTeam "red" sel ≤ maxPerTeam m)
    (hblue : countTeam "blue" sel ≤ maxPerTeam m)
    (hnodup : (sel.map (fun q => q.key)).Nodup)
    (hpool : ∀ q ∈ sel, q ∈ personaPool) :
    (forceRed m sel).length = sel.length ∧
    countTeam "red" (forceRed m sel) ≤ maxPerTeam m ∧
    ((forceRed m sel).map (fun q => q.key)).Nodup ∧
    (∀ q ∈ forceRed m sel, q ∈ personaPool) ∧
    (m ≤ sel.length → 1 ≤ countTeam "red" (forceRed m sel)) := by
  have hcap1 : 1 ≤ maxPerTeam m := Nat.le_max_left 1 _
  have hdakey : ∀ q ∈ personaPool, q.key = "devil_advocate" →
      q.red_blue = "red" := by decide
  unfold forceRed
  by_cases hguard : (countTeam "red" sel == 0 && decide (m ≤ sel.length))
    = true
  · rw [if_pos hguard]
    have h0 : countTeam "red" sel = 0 := by
      have := (Bool.and_eq_true _ _).mp hguard
      simpa using this.1
    have hfull : m ≤ sel.length := by
      have := (Bool.and_eq_true _ _).mp hguard
      simpa using this.2
    by_cases hcontains : ((sel.map (fun q => q.key)).contains
        devil_advocate.key) = true
    · rw [if_pos hcontains]
      have hmem : devil_advocate.key ∈ sel.map (fun q => q.key) := by
        simpa using hcontains
      rcases List.mem_map.mp hmem with ⟨q, hq, hkey⟩
      have : 1 ≤ countTeam "red" sel :=
        countTeam_pos_of_mem hq (hdakey q (hpool q hq) hkey)
      omega
    · rw [if_neg hcontains]
      cases hrep : replaceLastNeutral devil_advocate sel with
      | some ys =>
        obtain ⟨l1, x, l2, he1, he2, he3⟩ := replaceLastNeutral_spec hrep
        have hxn : (x.red_blue == "red") = false := by simp [he2]
        have hcount : countTeam "red" ys = countTeam "red" sel + 1 := by
          rw [he1, he3, countTeam_middle, countTeam_middle, hxn]
          have hda : (devil_advocate.red_blue == "red") = true := by decide
          rw [hda]
          simp
          omega
        have hlen2 : ys.length = sel.length := by
          rw [he1, he3]
          simp
        have hnodup2 : (ys.map (fun q => q.key)).Nodup := by
          rw [he3]
          exact nodup_keys_replace (he1 ▸ hnodup)
            (he1 ▸ (by simpa using hcontains))
        have hpool2 : ∀ q ∈ ys, q ∈ personaPool := by
          intro q hq
          rw [he3] at hq
          rcases List.mem_append.mp hq with h1 | h1
          · exact hpool q (he1 ▸ List.mem_append.mpr (Or.inl h1))
          · rcases List.mem_cons.mp h1 with rfl | h2
            · decide
            · exact hpool q (he1 ▸ List.mem_append.mpr
                (Or.inr (List.mem_cons_of_mem _ h2)))
        have hle : countTeam "red" ys ≤ maxPerTeam m := by omega
        have hge : 1 ≤ countTeam "red" ys := by omega
        exact ⟨hlen2, hle, hnodup2, hpool2, fun _ => hge⟩
      | none =>
        have hne : sel ≠ [] := by
          intro hnil
          rw [hnil] at hfull
          simp at hfull
          omega
        have hlen2 : (sel.dropLast ++ [devil_advocate]).length
            = sel.length := by
          rw [List.length_append, List.length_dropLast,
            List.length_singleton]
          have : 1 ≤ sel.length := List.length_pos.mpr hne
          omega
        have hdrop : countTeam "red" sel.dropLast = 0 := by
          have := countTeam_sublist (t := "red") (List.dropLast_sublist sel)
          omega
        have hcount : countTeam "red" (sel.dropLast ++ [devil_advocate])
            = 1 := by
          rw [countTeam_append, hdrop, countTeam_cons]
          have : (devil_advocate.red_blue == "red") = true := by decide
          rw [this]
          simp [countTeam]
        have hnodup2 : ((sel.dropLast ++ [devil_advocate]).map
              (fun q => q.key)).Nodup := by
          rw [List.map_append, List.map_singleton, List.nodup_append]
          refine ⟨?_, List.nodup_singleton _, ?_⟩
          · exact List.Nodup.sublist
              (List.Sublist.map _ (List.dropLast_sublist sel)) hnodup
          · simp only [List.disjoint_singleton]
            intro hmem
            have : devil_advocate.key ∈ sel.map (fun q => q.key) := by
              have hsub := List.Sublist.map (fun q => q.key)
                (List.dropLast_sublist sel)
              exact hsub.mem hmem
            exact absurd this (by simpa using hcontains)
        have hpool2 : ∀ q ∈ sel.dropLast ++ [devil_advocate],
            q ∈ personaPool := by
          intro q hq
          rcases List.mem_append.mp hq with h1 | h1
          · exact hpool q ((List.dropLast_sublist sel).mem h1)
          · rcases List.mem_singleton.mp h1 with rfl
            decide
        have hle : countTeam "red" (sel.dropLast ++ [devil_advocate])
            ≤ maxPerTeam m := by omega
        have hge : 1 ≤ countTeam "red" (sel.dropLast ++ [devil_advocate]) :=
          by omega

        exact ⟨hlen2, hle, hnodup2, hpool2, fun _ => hge⟩
  · rw [if_neg hguard]
    refine ⟨rfl, hred, hnodup, hpool, ?_⟩
    intro hfull
    by_contra hzero
    push_neg at hzero
    have h0 : countTeam "red" sel = 0 := by omega
    apply hguard
    simp [h0, hfull]

/-- The team-size cap leaves room for a neutral entry in a full selection
of at least two personas. -/
theorem maxPerTeam_le_sub_one (m : Nat) (hm : 2 ≤ m) :
    maxPerTeam m ≤ m - 1 := by
  unfold maxPerTeam
  have h1 : 1 ≤ (m + 1) / 2 := by omega
  rw [Nat.max_eq_right h1]
  omega

/-- The second balancing pass (`forceBlue`) keeps the length, the key
distinctness, pool membership and at least one red persona — and on a full
selection of ≥ 2 personas whose red count respects the cap it guarantees at
least one blue persona. -/
theorem forceBlue_inv (m : Nat) (sel : List PersonaTemplate) (hm : 2 ≤ m)
    (hlen : sel.length = m)
    (hredcap : countTeam "red" sel ≤ maxPerTeam m)
    (hred1 : 1 ≤ countTeam "red" sel)
    (hnodup : (sel.map (fun q => q.key)).Nodup)
    (hpool : ∀ q ∈ sel, q ∈ personaPool) :
    (forceBlue m sel).length = sel.length ∧
    1 ≤ countTeam "red" (forceBlue m sel) ∧
    1 ≤ countTeam "blue" (forceBlue m sel) ∧
    ((forceBlue m sel).map (fun q => q.key)).Nodup ∧
    (∀ q ∈ forceBlue m sel, q ∈ personaPool) := by
  have htri : ∀ q ∈ personaPool, q.red_blue = "red" ∨ q.red_blue = "blue" ∨
      q.red_blue = "neutral" := by decide
  have hfkey : ∀ q ∈ personaPool, q.key = "futurist" →
      q.red_blue = "blue" := by decide
  unfold forceBlue
  by_cases hguard : (countTeam "blue" sel == 0 && decide (m ≤ sel.length))
    = true
  · rw [if_pos hguard]
    have h0 : countTeam "blue" sel = 0 := by
      have := (Bool.and_eq_true _ _).mp hguard
      simpa using this.1
    have hfut_not : "futurist" ∉ sel.map (fun q => q.key) := by
      intro hmem
      rcases List.mem_map.mp hmem with ⟨q, hq, hkey⟩
      have := countTeam_pos_of_mem hq (hfkey q (hpool q hq) hkey)
      omega
    have hfut_mem : (personaPool.get ⟨3, by decide⟩) ∈
        personaPool.filter (fun p => p.red_blue == "blue" &&
          !((sel.map (fun q => q.key)).contains p.key)) := by
      apply List.mem_filter.mpr
      constructor
      · exact List.get_mem personaPool 3 (by decide)
      · have h1 : ((personaPool.get
            (⟨3, by decide⟩ : Fin personaPool.length)).red_blue == "blue")
            = true := by decide
        have hkey3 : (personaPool.get
            (⟨3, by decide⟩ : Fin personaPool.length)).key = "futurist" := by
          decide
        have h2 : ((sel.map (fun q => q.key)).contains "futurist") = false :=
          by simpa using hfut_not
        rw [Bool.and_eq_true, h1, hkey3, h2]
        exact ⟨rfl, rfl⟩
    have hneut_pos : 1 ≤ countTeam "neutral" sel := by
      have hpart := countTeam_partition sel
        (fun q hq => htri q (hpool q hq))
      have hcap := maxPerTeam_le_sub_one m hm
      omega
    have hx : ∃ x ∈ sel, x.red_blue = "neutral" := by
      have hne : sel.filter (fun p => p.red_blue == "neutral") ≠ [] := by
        intro h
        unfold countTeam at hneut_pos
        rw [h] at hneut_pos
        simp at hneut_pos
      obtain ⟨x, hxmem⟩ := List.exists_mem_of_ne_nil _ hne
      exact ⟨x, (List.mem_filter.mp hxmem).1,
        by simpa using (List.mem_filter.mp hxmem).2⟩
    split
    · next hcands =>
        rw [hcands] at hfut_mem
        cases hfut_mem
    · next c cs hcands =>
        have hc : c ∈ personaPool.filter (fun p => p.red_blue == "blue" &&
            !((sel.map (fun q => q.key)).contains p.key)) :=
          hcands ▸ List.mem_cons_self c cs
        have hcpool := (List.mem_filter.mp hc).1
        have hcpred := (List.mem_filter.mp hc).2
        have hcblue : c.red_blue = "blue" := by
          have := (Bool.and_eq_true _ _).mp hcpred
          simpa using this.1
        have hckey : c.key ∉ sel.map (fun q => q.key) := by
          have := (Bool.and_eq_true _ _).mp hcpred
          simpa using this.2
        split
        · next ys hrep =>
            obtain ⟨l1, x, l2, he1, he2, he3⟩ := replaceLastNeutral_spec hrep
            have hlen2 : ys.length = sel.length := by
              rw [he1, he3]
              simp
            have hxr : (x.red_blue == "red") = false := by simp [he2]
            have hcr : (c.red_blue == "red") = false := by simp [hcblue]
            have hredeq : countTeam "red" ys = countTeam "red" sel := by
              rw [he1, he3, countTeam_middle, countTeam_middle, hxr, hcr]
            have hcys : c ∈ ys := by
              rw [he3]
              exact List.mem_append.mpr (Or.inr (List.mem_cons_self _ _))
            have hblue2 : 1 ≤ countTeam "blue" ys :=
              countTeam_pos_of_mem hcys hcblue
            have hnodup2 : (ys.map (fun q => q.key)).Nodup := by
              rw [he3]
              exact nodup_keys_replace (he1 ▸ hnodup) (he1 ▸ hckey)
            have hpool2 : ∀ q ∈ ys, q ∈ personaPool := by
              intro q hq
              rw [he3] at hq
              rcases List.mem_append.mp hq with h1 | h1
              · exact hpool q (he1 ▸ List.mem_append.mpr (Or.inl h1))
              · rcases List.mem_cons.mp h1 with rfl | h2
                · exact hcpool
                · exact hpool q (he1 ▸ List.mem_append.mpr
                    (Or.inr (List.mem_cons_of_mem _ h2)))
            exact ⟨hlen2, by omega, hblue2, hnodup2, hpool2⟩
        · next hrep =>
            obtain ⟨x, hxmem, hxneut⟩ := hx
            exact absurd hxneut (replaceLastNeutral_none hrep x hxmem)
  · rw [if_neg hguard]
    refine ⟨rfl, hred1, ?_, hnodup, hpool⟩
    by_contra hb
    push_neg at hb
    have h0 : countTeam "blue" sel = 0 := by omega
    exact hguard (by simp [h0, hlen])

/-- Unconditionally, the second balancing pass keeps the selection's
length, key distinctness and pool membership. -/
theorem forceBlue_basic (m : Nat) (sel : List PersonaTemplate)
    (hnodup : (sel.map (fun q => q.key)).Nodup)
    (hpool : ∀ q ∈ sel, q ∈ personaPool) :
    (forceBlue m sel).length = sel.length ∧
    ((forceBlue m sel).map (fun q => q.key)).Nodup ∧
    (∀ q ∈ forceBlue m sel, q ∈ personaPool) := by
  unfold forceBlue
  split
  · split
    · exact ⟨rfl, hnodup, hpool⟩
    · next c cs hcands =>
        have hc : c ∈ personaPool.filter (fun p => p.red_blue == "blue" &&
            !((sel.map (fun q => q.key)).contains p.key)) :=
          hcands ▸ List.mem_cons_self c cs
        have hcpool := (List.mem_filter.mp hc).1
        have hckey : c.key ∉ sel.map (fun q => q.key) := by
          have := (Bool.and_eq_true _ _).mp (List.mem_filter.mp hc).2
          simpa using this.2
        split
        · next ys hrep =>
            obtain ⟨l1, x, l2, he1, _, he3⟩ := replaceLastNeutral_spec hrep
            refine ⟨?_, ?_, ?_⟩
            · rw [he1, he3]
              simp
            · rw [he3]
              exact nodup_keys_replace (he1 ▸ hnodup) (he1 ▸ hckey)
            · intro q hq
              rw [he3] at hq
              rcases List.mem_append.mp hq with h1 | h1
              · exact hpool q (he1 ▸ List.mem_append.mpr (Or.inl h1))
              · rcases List.mem_cons.mp h1 with rfl | h2
                · exact hcpool
                · exact hpool q (he1 ▸ List.mem_append.mpr
                    (Or.inr (List.mem_cons_of_mem _ h2)))
        · exact ⟨rfl, hnodup, hpool⟩
  · exact ⟨rfl, hnodup, hpool⟩

/-- C3: whenever a recommendation with `maxCount ≥ 2` comes back full
(exactly `maxCount` configurations), it contains at least one
critical-stance and at least one supportive-stance persona — and the
catalog does hold at least one persona of each stance, as the claim's
proviso assumes. -/
theorem recommend_full_selection_balanced (topic : String) (m : Nat)
    (language : String) (hm : 2 ≤ m)
    (hfull : (recommend_personas topic m language).length = m) :
    (∃ c ∈ recommend_personas topic m language, c.red_blue = "red") ∧
    (∃ c ∈ recommend_personas topic m language, c.red_blue = "blue") ∧
    (∃ p ∈ personaPool, p.red_blue = "red") ∧
    (∃ p ∈ personaPool, p.red_blue = "blue") := by
  have hpool0 := scoredPool_mem_pool topic
  have hloop := selectLoop_inv m (scoredPool topic) hpool0
  have hFR := forceRed_inv m (selectLoop m (scoredPool topic)) (by omega)
    hloop.1 hloop.2.1 hloop.2.2.1 hloop.2.2.2.1 hloop.2.2.2.2
  have hFB0 := forceBlue_basic m (forceRed m (selectLoop m (scoredPool topic)))
    hFR.2.2.1 hFR.2.2.2.1
  have hlenL : (selectedPersonas topic m).length =
      (selectLoop m (scoredPool topic)).length := by
    unfold selectedPersonas
    rw [hFB0.1, hFR.1]
  have hres : (recommend_personas topic m language).length =
      min m (selectedPersonas topic m).length := by
    unfold recommend_personas
    rw [List.length_map, List.length_take]
  have hfull0 : m ≤ (selectLoop m (scoredPool topic)).length := by
    rw [hres, hlenL] at hfull
    omega
  have hlen0 : (selectLoop m (scoredPool topic)).length = m := by
    have := hloop.1
    omega
  have hred1 : 1 ≤ countTeam "red"
      (forceRed m (selectLoop m (scoredPool topic))) :=
    hFR.2.2.2.2 hfull0
  have hlen1 : (forceRed m (selectLoop m (scoredPool topic))).length = m := by
    rw [hFR.1, hlen0]
  have hFB := forceBlue_inv m
    (forceRed m (selectLoop m (scoredPool topic))) hm hlen1 hFR.2.1 hred1
    hFR.2.2.1 hFR.2.2.2.1
  have hlenFB : (selectedPersonas topic m).length = m := by
    rw [hlenL, hlen0]
  have htake : (selectedPersonas topic m).take m = selectedPersonas topic m :=
    List.take_of_length_le (by omega)
  have hmemTeam : ∀ t : String,
      1 ≤ countTeam t (selectedPersonas topic m) →
      ∃ c ∈ recommend_personas topic m language, c.red_blue = t := by
    intro t hpos
    have hne : (selectedPersonas topic m).filter
        (fun p => p.red_blue == t) ≠ [] := by
      intro h
      unfold countTeam at hpos
      rw [h] at hpos
      simp at hpos
    obtain ⟨q, hq⟩ := List.exists_mem_of_ne_nil _ hne
    have hqmem : q ∈ selectedPersonas topic m := (List.mem_filter.mp hq).1
    have hqt : q.red_blue = t := by
      simpa using (List.mem_filter.mp hq).2
    refine ⟨mkConfig language q, ?_, hqt⟩
    unfold recommend_personas
    rw [htake]
    exact List.mem_map.mpr ⟨q, hqmem, rfl⟩
  refine ⟨?_, ?_, by decide, by decide⟩
  · exact hmemTeam "red" hFB.2.1
  · exact hmemTeam "blue" hFB.2.2.1

/-- Witness for C3 at the concrete full recommendation for topic `"AI"`
with `maxCount = 2`. -/
theorem recommend_full_selection_balanced_witness :
    (∃ c ∈ recommend_personas "AI" 2 "ko", c.red_blue = "red") ∧
    (∃ c ∈ recommend_personas "AI" 2 "ko", c.red_blue = "blue") ∧
    (∃ p ∈ personaPool, p.red_blue = "red") ∧
    (∃ p ∈ personaPool, p.red_blue = "blue") :=
  recommend_full_selection_balanced "AI" 2 "ko" (by decide) (by decide)

/-- C8: for `maxCount` in [1,4] (and in fact any `maxCount ≥ 1`), a
recommendation returns at most `maxCount` configurations whose persona keys
are pairwise distinct. -/
theorem recommend_no_duplicate_keys (topic : String) (m : Nat)
    (language : String) (h1 : 1 ≤ m) (h4 : m ≤ 4) :
    (recommend_personas topic m language).length ≤ m ∧
    ((recommend_personas topic m language).map (fun c => c.key)).Nodup := by
  have hpool0 := scoredPool_mem_pool topic
  have hloop := selectLoop_inv m (scoredPool topic) hpool0
  have hFR := forceRed_inv m (selectLoop m (scoredPool topic)) h1
    hloop.1 hloop.2.1 hloop.2.2.1 hloop.2.2.2.1 hloop.2.2.2.2
  have hFB0 := forceBlue_basic m (forceRed m (selectLoop m (scoredPool topic)))
    hFR.2.2.1 hFR.2.2.2.1
  constructor
  · unfold recommend_personas
    rw [List.length_map]
    exact List.length_take_le m _
  · have hkeys : ((recommend_personas topic m language).map
        (fun c => c.key)) =
        ((selectedPersonas topic m).map (fun q => q.key)).take m := by
      unfold recommend_personas
      rw [List.map_map, ← List.map_take]
      rfl
    rw [hkeys]
    exact List.Nodup.sublist (List.take_sublist _ _) hFB0.2.1

/-- Witness for C8 at the spec's end-to-end example topic with
`maxCount = 4`. -/
theorem recommend_no_duplicate_keys_witness :
    (recommend_personas "AI 반도체 시장 전망" 4 "ko").length ≤ 4 ∧
    ((recommend_personas "AI 반도체 시장 전망" 4 "ko").map
      (fun c => c.key)).Nodup :=
  recommend_no_duplicate_keys "AI 반도체 시장 전망" 4 "ko" (by decide)
    (by decide)

end NotebookLM
